import Mathlib

/-!
# Verification of the `world-transmuter-engine` conversion core

Shallow embedding of the repository's Rust sources (`src/convert.rs`,
`src/utils.rs`, `src/lib.rs`) and proofs about the claims of the
natural-language specification.

Modelling conventions:

* Rust's in-place mutation (`&mut`) is modelled by explicit state passing:
  a function mutating a `JCompound` becomes `JCompound → JCompound`.
* To reason about *which* converters/hooks/walkers are invoked and in what
  order, every registered converter, hook and walker carries a `label : Nat`
  and the engine's `convert` functions return, next to the final document,
  the list of invocation `Event`s in execution order.  The document
  transformation itself is unchanged; the trace is pure instrumentation.
* `DataVersion` is the struct of two `u32`s with the derived lexicographic
  `Ord` (`version` first, then `step`); the `u32` payloads are modelled as
  `Nat` (no arithmetic overflow is ever exercised by the engine, versions
  are only compared).
* `BTreeMap<DataVersion, Vec<_>>` is modelled as an association list
  sorted strictly by key; `range(..=v).next_back()` becomes `floorBucket`,
  and `entry(v).or_default().push(x)` becomes `bucketPush`, which inserts
  at the sorted position.  Theorems that depend on the floor semantics take
  the sortedness invariant (maintained by every registration function) as a
  hypothesis.
* `BTreeMap<JavaString, _>` (the outer map of `walkers_by_id`) is modelled
  as an association list keyed by `String`; only `get` and
  `entry(..).or_default()` are used on it, for which first-match lookup and
  update-or-append are observationally equivalent to the B-tree.
* `valence_nbt::Value<JavaString>` / `List` / `Compound` are modelled by
  the mutual inductives `JValue`/`JList` below, with `JCompound` an
  association list with unique keys.  Floating point payloads are carried
  as opaque bit patterns (`Nat`): the engine never computes with them.
* Rust's `i8`/`i16`/`i32`/`i64` payloads are modelled as `Int`; the engine
  only moves these values around, never performs bounded arithmetic.
-/

namespace WTE

/-- `DataVersion { version: u32, step: u32 }` from `src/convert.rs`. -/
structure DataVersion where
  version : Nat
  step : Nat
deriving DecidableEq, Repr

instance : Inhabited DataVersion := ⟨⟨0, 0⟩⟩

/-- The derived `Ord` of the Rust struct: lexicographic on
`(version, step)`. -/
def DataVersion.toLexPair (v : DataVersion) : Lex (Nat × Nat) :=
  toLex (v.version, v.step)

instance : LinearOrder DataVersion :=
  LinearOrder.lift' DataVersion.toLexPair (fun a b h => by
    cases a; cases b
    simpa [DataVersion.toLexPair, toLex, Prod.ext_iff] using h)

/-- `From<u32> for DataVersion`: lifts a bare version with step 0. -/
def DataVersion.ofNat (n : Nat) : DataVersion := ⟨n, 0⟩

/-! ## The document model (`valence_nbt` values, `src/lib.rs` type aliases)

`JValue = valence_nbt::Value<JavaString>`, `JList = valence_nbt::List<JavaString>`,
`JCompound = valence_nbt::Compound<JavaString>` (a map from strings to values,
modelled as an association list with unique keys). -/

mutual

/-- `valence_nbt::Value<JavaString>`.  Numeric payloads are `Int`; float
payloads are opaque bit patterns (never computed with by the engine). -/
inductive JValue : Type where
  | Byte (v : Int)
  | Short (v : Int)
  | Int (v : Int)
  | Long (v : Int)
  | Float (bits : Nat)
  | Double (bits : Nat)
  | ByteArray (v : List Int)
  | String (s : String)
  | List (l : JList)
  | Compound (m : List (String × JValue))
  | IntArray (v : List Int)
  | LongArray (v : List Int)

/-- `valence_nbt::List<JavaString>`: a homogeneous NBT list, one variant per
element type; `End` is the empty untyped list. -/
inductive JList : Type where
  | End
  | Byte (v : List Int)
  | Short (v : List Int)
  | Int (v : List Int)
  | Long (v : List Int)
  | Float (v : List Nat)
  | Double (v : List Nat)
  | ByteArray (v : List (List Int))
  | String (v : List String)
  | List (v : List JList)
  | Compound (v : List (List (String × JValue)))
  | IntArray (v : List (List Int))
  | LongArray (v : List (List Int))

end

/-- `JCompound = valence_nbt::Compound<JavaString>`: map as assoc list. -/
abbrev JCompound := List (String × JValue)

/-- `Compound::get`: first-match lookup. -/
def JCompound.get (m : JCompound) (key : String) : Option JValue :=
  match m with
  | [] => none
  | (k, v) :: rest => if k = key then some v else JCompound.get rest key

/-- `Compound::insert`: replace the existing entry in place, else append. -/
def JCompound.insert (m : JCompound) (key : String) (value : JValue) : JCompound :=
  match m with
  | [] => [(key, value)]
  | (k, v) :: rest =>
    if k = key then (k, value) :: rest else (k, v) :: JCompound.insert rest key value

/-- `Compound::remove`, returning the updated map (the removed value, if
any, is `JCompound.get m key`). -/
def JCompound.remove (m : JCompound) (key : String) : JCompound :=
  match m with
  | [] => []
  | (k, v) :: rest => if k = key then rest else (k, v) :: JCompound.remove rest key

/-- `Compound::keys`. -/
def JCompound.keysOf (m : JCompound) : List String := m.map (·.1)

/-! ## Instrumentation: invocation events

`convert` returns, next to the resulting document, the list of converter,
hook and walker invocations in execution order.  Every registered
converter/hook/walker carries a `label` identifying it in the trace. -/

/-- One engine callback invocation. -/
inductive Event : Type where
  | conv (label : Nat)
  | preHook (label : Nat)
  | postHook (label : Nat)
  | walk (label : Nat)
deriving DecidableEq, Repr

/-- A registered converter (`MapDataConverter` / `ValueDataConverter` /
`DynamicDataConverter`): a `to_version` and the conversion function
(`&mut` mutation modelled as `δ → δ`), plus the instrumentation label. -/
structure Converter (δ : Type) where
  to_version : DataVersion
  label : Nat
  func : δ → DataVersion → DataVersion → δ

/-- A registered hook (`MapDataHook` / `ValueDataHook` / `DynamicDataHook`). -/
structure Hook (δ : Type) where
  label : Nat
  pre_hook : δ → DataVersion → DataVersion → δ
  post_hook : δ → DataVersion → DataVersion → δ

/-- A registered walker (`MapDataWalker` / `DynamicDataWalker`). -/
structure Walker (δ : Type) where
  label : Nat
  walk : δ → DataVersion → DataVersion → δ

/-- `BTreeMap<DataVersion, Vec<α>>` as an assoc list sorted strictly by key. -/
abbrev VersionMap (α : Type) := List (DataVersion × List α)

/-- The B-tree sortedness invariant: keys strictly increasing. -/
def KeysSorted {α : Type} (m : VersionMap α) : Prop :=
  m.Pairwise (fun a b => a.1 < b.1)

/-- `map.range(..=v).next_back()`: the bucket with the greatest key `≤ v`.
On a `KeysSorted` list this scan keeps the last entry with key `≤ v`. -/
def floorBucket {α : Type} (m : VersionMap α) (v : DataVersion) : Option (List α) :=
  match m with
  | [] => none
  | (k, a) :: rest =>
    if k ≤ v then some ((floorBucket rest v).getD a) else floorBucket rest v

/-- `map.entry(v).or_default().push(x)`: append `x` to the bucket at key
`v`, inserting the key at its sorted position if absent. -/
def bucketPush {α : Type} (m : VersionMap α) (v : DataVersion) (x : α) : VersionMap α :=
  match m with
  | [] => [(v, [x])]
  | (k, xs) :: rest =>
    if v < k then (v, [x]) :: (k, xs) :: rest
    else if v = k then (k, xs ++ [x]) :: rest
    else (k, xs) :: bucketPush rest v x

/-! ## Hook / walker execution

`for hook in hooks { hook.pre_hook(..) }` and friends, as sequential folds
that also emit the trace.  Reversed iteration (`hooks.iter().rev()`) is
`runX hs.reverse ..`. -/

/-- Run `pre_hook` of each hook in list order. -/
def runPre {δ : Type} (hs : List (Hook δ)) (d : δ) (f t : DataVersion) :
    δ × List Event :=
  match hs with
  | [] => (d, [])
  | h :: rest =>
    let r := runPre rest (h.pre_hook d f t) f t
    (r.1, Event.preHook h.label :: r.2)

/-- Run `post_hook` of each hook in list order. -/
def runPost {δ : Type} (hs : List (Hook δ)) (d : δ) (f t : DataVersion) :
    δ × List Event :=
  match hs with
  | [] => (d, [])
  | h :: rest =>
    let r := runPost rest (h.post_hook d f t) f t
    (r.1, Event.postHook h.label :: r.2)

/-- Run `walk` of each walker in list order. -/
def runWalk {δ : Type} (ws : List (Walker δ)) (d : δ) (f t : DataVersion) :
    δ × List Event :=
  match ws with
  | [] => (d, [])
  | w :: rest =>
    let r := runWalk rest (w.walk d f t) f t
    (r.1, Event.walk w.label :: r.2)

/-! ## The converter loop

Transcription of the loop shared verbatim by
`MapDataType::convert` (`src/convert.rs:395-423`),
`ObjectDataType::convert` (`:478-507`) and
`DynamicDataType::convert` (`:549-577`); the `IdDataType` variant
(`:696-724`) differs in running its per-converter post-hooks in *forward*
list order (no `.rev()` at line 720), hence the separate `convertLoopId`. -/

/-- The loop body for Map/Object/Dynamic: skip converters at or below
`from_version`, stop at the first above `to_version`; around each applied
converter run the floor hook bucket at `converter.to_version` (pre, list
order) and the floor hook bucket at `to_version` (post, reverse order). -/
def convertLoop {δ : Type} (hooks : VersionMap (Hook δ))
    (convs : List (Converter δ)) (d : δ) (f t : DataVersion) : δ × List Event :=
  match convs with
  | [] => (d, [])
  | c :: rest =>
    if c.to_version ≤ f then convertLoop hooks rest d f t
    else if t < c.to_version then (d, [])
    else
      let pre := (floorBucket hooks c.to_version).getD []
      let r1 := runPre pre d f t
      let d2 := c.func r1.1 f t
      let post := (floorBucket hooks t).getD []
      let r3 := runPost post.reverse d2 f t
      let r4 := convertLoop hooks rest r3.1 f t
      (r4.1, r1.2 ++ Event.conv c.label :: (r3.2 ++ r4.2))

/-- The `IdDataType` variant of the loop: identical except the
per-converter post-hooks run in forward list order (`src/convert.rs:719-721`). -/
def convertLoopId {δ : Type} (hooks : VersionMap (Hook δ))
    (convs : List (Converter δ)) (d : δ) (f t : DataVersion) : δ × List Event :=
  match convs with
  | [] => (d, [])
  | c :: rest =>
    if c.to_version ≤ f then convertLoopId hooks rest d f t
    else if t < c.to_version then (d, [])
    else
      let pre := (floorBucket hooks c.to_version).getD []
      let r1 := runPre pre d f t
      let d2 := c.func r1.1 f t
      let post := (floorBucket hooks t).getD []
      let r3 := runPost post d2 f t
      let r4 := convertLoopId hooks rest r3.1 f t
      (r4.1, r1.2 ++ Event.conv c.label :: (r3.2 ++ r4.2))

/-- The unconditional trailing pass of `MapDataType::convert`
(`src/convert.rs:425-443`) and `DynamicDataType::convert` (`:579-597`):
floor hook bucket pre-hooks in list order, floor walker bucket in list
order, same hook bucket post-hooks in reverse list order. -/
def trailingPass {δ : Type} (hooks : VersionMap (Hook δ))
    (walkers : VersionMap (Walker δ)) (d : δ) (f t : DataVersion) :
    δ × List Event :=
  let hb := (floorBucket hooks t).getD []
  let r1 := runPre hb d f t
  let wb := (floorBucket walkers t).getD []
  let r2 := runWalk wb r1.1 f t
  let r3 := runPost hb.reverse r2.1 f t
  (r3.1, r1.2 ++ r2.2 ++ r3.2)

/-! ## Registration: sorted insertion of converters

`add_structure_converter` (the `structure_converters!` macro,
`src/convert.rs:323-342`) inserts at the index returned by Rust's
`slice::binary_search` (comparison on `to_version` only, per the derived
`Ord` of the converter types). -/

/-- The loop of Rust `core::slice::binary_search_by` (the branchless
implementation: narrow `[base, base+size)` halving `size`, moving `base`
to `mid` whenever the probed element is not greater than the target).
`size` shrinks by at least one per iteration, so the loop is expressed by
structural recursion on a fuel counter initialised to the slice length. -/
def bsearchLoop (get : Nat → DataVersion) (target : DataVersion) :
    Nat → Nat → Nat → Nat
  | 0, base, _ => base
  | fuel + 1, base, size =>
    if 1 < size then
      let half := size / 2
      let mid := base + half
      let base' := if target < get mid then base else mid
      bsearchLoop get target fuel base' (size - half)
    else base

/-- Rust `slice::binary_search` on the keys: `ok i` when the element at
the final probe equals the target, else `error` with the insertion point. -/
def rust_binary_search (keys : List DataVersion) (target : DataVersion) :
    Except Nat Nat :=
  if keys.length = 0 then .error 0
  else
    let base := bsearchLoop (fun i => keys.getD i default) target
      keys.length 0 keys.length
    let k := keys.getD base default
    if k = target then .ok base
    else if k < target then .error (base + 1)
    else .error base

/-- `add_structure_converter`'s insertion: binary search on `to_version`
(`Ok(i) | Err(i) => i`), then `Vec::insert` at that index. -/
def addConverterSorted {δ : Type} (convs : List (Converter δ))
    (c : Converter δ) : List (Converter δ) :=
  let idx :=
    match rust_binary_search (convs.map (·.to_version)) c.to_version with
    | .ok i => i
    | .error i => i
  convs.insertIdx idx c

/-! ## The four `DataType` variants (`src/convert.rs:359-762`) -/

/-- `MapDataType<'a>`: converters over compounds, plus walker and hook
registries. -/
structure MapDataType where
  name : String
  structure_converters : List (Converter JCompound)
  structure_walkers : VersionMap (Walker JCompound)
  structure_hooks : VersionMap (Hook JCompound)

/-- `MapDataType::new`. -/
def MapDataType.new (name : String) : MapDataType := ⟨name, [], [], []⟩

/-- `MapDataType::add_structure_converter` (via `structure_converters!`). -/
def MapDataType.add_structure_converter (dt : MapDataType) (version : DataVersion)
    (label : Nat) (func : JCompound → DataVersion → DataVersion → JCompound) :
    MapDataType :=
  { dt with structure_converters :=
      addConverterSorted dt.structure_converters ⟨version, label, func⟩ }

/-- `MapDataType::add_structure_walker` (via `version_list!`). -/
def MapDataType.add_structure_walker (dt : MapDataType) (version : DataVersion)
    (w : Walker JCompound) : MapDataType :=
  { dt with structure_walkers := bucketPush dt.structure_walkers version w }

/-- `MapDataType::add_structure_hook` (via `version_list!`). -/
def MapDataType.add_structure_hook (dt : MapDataType) (version : DataVersion)
    (h : Hook JCompound) : MapDataType :=
  { dt with structure_hooks := bucketPush dt.structure_hooks version h }

/-- `impl AbstractMapDataType for MapDataType` (`src/convert.rs:394-445`):
converter loop, then the unconditional trailing hook/walker pass. -/
def MapDataType.convert (dt : MapDataType) (data : JCompound)
    (from_version to_version : DataVersion) : JCompound × List Event :=
  let r1 := convertLoop dt.structure_hooks dt.structure_converters data
    from_version to_version
  let r2 := trailingPass dt.structure_hooks dt.structure_walkers r1.1
    from_version to_version
  (r2.1, r1.2 ++ r2.2)

/-- `ObjectDataType<'a>`: converters over scalar values.  `JValueMut`, a
mutable view into a value, is modelled as the value itself. -/
structure ObjectDataType where
  name : String
  converters : List (Converter JValue)
  structure_hooks : VersionMap (Hook JValue)

/-- `ObjectDataType::new`. -/
def ObjectDataType.new (name : String) : ObjectDataType := ⟨name, [], []⟩

/-- `ObjectDataType::add_structure_converter`. -/
def ObjectDataType.add_structure_converter (dt : ObjectDataType)
    (version : DataVersion) (label : Nat)
    (func : JValue → DataVersion → DataVersion → JValue) : ObjectDataType :=
  { dt with converters := addConverterSorted dt.converters ⟨version, label, func⟩ }

/-- `ObjectDataType::add_structure_hook`. -/
def ObjectDataType.add_structure_hook (dt : ObjectDataType) (version : DataVersion)
    (h : Hook JValue) : ObjectDataType :=
  { dt with structure_hooks := bucketPush dt.structure_hooks version h }

/-- `impl AbstractValueDataType for ObjectDataType` (`src/convert.rs:477-508`):
only the converter loop; no trailing walker/hook pass. -/
def ObjectDataType.convert (dt : ObjectDataType) (data : JValue)
    (from_version to_version : DataVersion) : JValue × List Event :=
  convertLoop dt.structure_hooks dt.converters data from_version to_version

/-- `DynamicDataType<'a>`: converters over arbitrary values. -/
structure DynamicDataType where
  name : String
  structure_converters : List (Converter JValue)
  structure_walkers : VersionMap (Walker JValue)
  structure_hooks : VersionMap (Hook JValue)

/-- `DynamicDataType::new`. -/
def DynamicDataType.new (name : String) : DynamicDataType := ⟨name, [], [], []⟩

/-- `DynamicDataType::add_structure_converter`. -/
def DynamicDataType.add_structure_converter (dt : DynamicDataType)
    (version : DataVersion) (label : Nat)
    (func : JValue → DataVersion → DataVersion → JValue) : DynamicDataType :=
  { dt with structure_converters :=
      addConverterSorted dt.structure_converters ⟨version, label, func⟩ }

/-- `DynamicDataType::add_structure_walker`. -/
def DynamicDataType.add_structure_walker (dt : DynamicDataType)
    (version : DataVersion) (w : Walker JValue) : DynamicDataType :=
  { dt with structure_walkers := bucketPush dt.structure_walkers version w }

/-- `DynamicDataType::add_structure_hook`. -/
def DynamicDataType.add_structure_hook (dt : DynamicDataType)
    (version : DataVersion) (h : Hook JValue) : DynamicDataType :=
  { dt with structure_hooks := bucketPush dt.structure_hooks version h }

/-- `impl AbstractDynamicDataType for DynamicDataType`
(`src/convert.rs:548-599`): same shape as `MapDataType::convert`. -/
def DynamicDataType.convert (dt : DynamicDataType) (data : JValue)
    (from_version to_version : DataVersion) : JValue × List Event :=
  let r1 := convertLoop dt.structure_hooks dt.structure_converters data
    from_version to_version
  let r2 := trailingPass dt.structure_hooks dt.structure_walkers r1.1
    from_version to_version
  (r2.1, r1.2 ++ r2.2)

/-- The per-discriminator walker registry
`walkers_by_id: BTreeMap<JavaString, BTreeMap<DataVersion, Vec<Rc<dyn MapDataWalker>>>>`.
`Rc` sharing is modelled by the same `Walker` value appearing in several
buckets. -/
abbrev WalkersById := List (String × VersionMap (Walker JCompound))

/-- `BTreeMap::get` on the outer string-keyed map. -/
def WalkersById.get (wbi : WalkersById) (id : String) :
    Option (VersionMap (Walker JCompound)) :=
  match wbi with
  | [] => none
  | (k, m) :: rest => if k = id then some m else WalkersById.get rest id

/-- `walkers_by_id.entry(id).or_default().entry(version).or_default().push(w)`. -/
def WalkersById.entryPush (wbi : WalkersById) (id : String)
    (version : DataVersion) (w : Walker JCompound) : WalkersById :=
  match wbi with
  | [] => [(id, bucketPush [] version w)]
  | (k, m) :: rest =>
    if k = id then (k, bucketPush m version w) :: rest
    else (k, m) :: WalkersById.entryPush rest id version w

/-- `IdDataType<'a>`: a map data type with additional walker dispatch on
the `"id"` field. -/
structure IdDataType where
  name : String
  structure_converters : List (Converter JCompound)
  structure_walkers : VersionMap (Walker JCompound)
  structure_hooks : VersionMap (Hook JCompound)
  walkers_by_id : WalkersById

/-- `IdDataType::new`. -/
def IdDataType.new (name : String) : IdDataType := ⟨name, [], [], [], []⟩

/-- `IdDataType::add_structure_converter`. -/
def IdDataType.add_structure_converter (dt : IdDataType) (version : DataVersion)
    (label : Nat) (func : JCompound → DataVersion → DataVersion → JCompound) :
    IdDataType :=
  { dt with structure_converters :=
      addConverterSorted dt.structure_converters ⟨version, label, func⟩ }

/-- `IdDataType::add_structure_walker`. -/
def IdDataType.add_structure_walker (dt : IdDataType) (version : DataVersion)
    (w : Walker JCompound) : IdDataType :=
  { dt with structure_walkers := bucketPush dt.structure_walkers version w }

/-- `IdDataType::add_structure_hook`. -/
def IdDataType.add_structure_hook (dt : IdDataType) (version : DataVersion)
    (h : Hook JCompound) : IdDataType :=
  { dt with structure_hooks := bucketPush dt.structure_hooks version h }

/-- `IdDataType::add_converter_for_id` (`src/convert.rs:640-656`): an
ordinary structure converter whose function is guarded on the `"id"`
field equalling `id`. -/
def IdDataType.add_converter_for_id (dt : IdDataType) (id : String)
    (version : DataVersion) (label : Nat)
    (func : JCompound → DataVersion → DataVersion → JCompound) : IdDataType :=
  dt.add_structure_converter version label (fun data f t =>
    match JCompound.get data "id" with
    | some (JValue.String s) => if s = id then func data f t else data
    | _ => data)

/-- `IdDataType::add_walker_for_id` (`src/convert.rs:658-670`). -/
def IdDataType.add_walker_for_id (dt : IdDataType) (version : DataVersion)
    (id : String) (w : Walker JCompound) : IdDataType :=
  { dt with walkers_by_id := dt.walkers_by_id.entryPush id version w }

/-- `IdDataType::copy_walkers` (`src/convert.rs:672-693`): floor-look-up
`from_id`'s bucket at `version`, then push each walker (the shared handle)
into `to_id`'s bucket keyed exactly at `version`; no-op when the lookup
fails. -/
def IdDataType.copy_walkers (dt : IdDataType) (version : DataVersion)
    (from_id to_id : String) : IdDataType :=
  match dt.walkers_by_id.get from_id with
  | none => dt
  | some from_versions =>
    match floorBucket from_versions version with
    | none => dt
    | some from_walkers =>
      { dt with walkers_by_id :=
          (from_walkers.foldl (fun acc w => WalkersById.entryPush acc to_id version w)
            dt.walkers_by_id) }

/-- The id-walker stage of `IdDataType::convert` (`src/convert.rs:744-752`):
read the `"id"` field; when it is a string with a registered bucket map,
run the floor bucket at `to_version`; otherwise skip silently. -/
def runIdWalkers (wbi : WalkersById) (d : JCompound) (f t : DataVersion) :
    JCompound × List Event :=
  match JCompound.get d "id" with
  | some (JValue.String id) =>
    match wbi.get id with
    | some walkers_by_version =>
      match floorBucket walkers_by_version t with
      | some ws => runWalk ws d f t
      | none => (d, [])
    | none => (d, [])
  | _ => (d, [])

/-- `impl AbstractMapDataType for IdDataType` (`src/convert.rs:695-762`):
the Id converter loop (forward post-hooks), then trailing pre-hooks in
*reverse* list order (`hooks.iter().rev()` at line 730), the generic floor
walker bucket, the id-dispatched walkers, and trailing post-hooks in
reverse list order. -/
def IdDataType.convert (dt : IdDataType) (data : JCompound)
    (from_version to_version : DataVersion) : JCompound × List Event :=
  let r1 := convertLoopId dt.structure_hooks dt.structure_converters data
    from_version to_version
  let hb := (floorBucket dt.structure_hooks to_version).getD []
  let r2 := runPre hb.reverse r1.1 from_version to_version
  let wb := (floorBucket dt.structure_walkers to_version).getD []
  let r3 := runWalk wb r2.1 from_version to_version
  let r4 := runIdWalkers dt.walkers_by_id r3.1 from_version to_version
  let r5 := runPost hb.reverse r4.1 from_version to_version
  (r5.1, r1.2 ++ r2.2 ++ r3.2 ++ r4.2 ++ r5.2)

/-! ## `src/utils.rs`: traversal helpers

Only the helpers the claims are about are embedded:
`convert_dynamic_list_in_map`, `rename_key`/`rename_keys`, `get_mut_multi`.
The abstract dynamic data type argument of `convert_dynamic_list_in_map`
is its `convert` action, `JValue → DataVersion → DataVersion → JValue`
(trait object modelled by its only method). -/

/-- `impl From<Value> for List` of the `valence_nbt` dependency: a
one-element homogeneous list of the value's own type. -/
def JList.fromValue : JValue → JList
  | .Byte v => .Byte [v]
  | .Short v => .Short [v]
  | .Int v => .Int [v]
  | .Long v => .Long [v]
  | .Float b => .Float [b]
  | .Double b => .Double [b]
  | .ByteArray v => .ByteArray [v]
  | .String s => .String [s]
  | .List l => .List [l]
  | .Compound m => .Compound [m]
  | .IntArray v => .IntArray [v]
  | .LongArray v => .LongArray [v]

/-- `valence_nbt::List::try_push`: pushing onto the empty (`End`) list
adopts the value's type; otherwise the push succeeds (returning `true`)
exactly when the value's type matches the list's element type, and a
mismatched value is dropped (returning `false`, list unchanged). -/
def JList.try_push : JList → JValue → JList × Bool
  | .End, v => (JList.fromValue v, true)
  | .Byte l, .Byte v => (.Byte (l ++ [v]), true)
  | .Short l, .Short v => (.Short (l ++ [v]), true)
  | .Int l, .Int v => (.Int (l ++ [v]), true)
  | .Long l, .Long v => (.Long (l ++ [v]), true)
  | .Float l, .Float b => (.Float (l ++ [b]), true)
  | .Double l, .Double b => (.Double (l ++ [b]), true)
  | .ByteArray l, .ByteArray v => (.ByteArray (l ++ [v]), true)
  | .String l, .String s => (.String (l ++ [s]), true)
  | .List l, .List x => (.List (l ++ [x]), true)
  | .Compound l, .Compound m => (.Compound (l ++ [m]), true)
  | .IntArray l, .IntArray v => (.IntArray (l ++ [v]), true)
  | .LongArray l, .LongArray v => (.LongArray (l ++ [v]), true)
  | l, _ => (l, false)

/-- A list of NBT values (named so that it stays visible inside the
`JList` namespace, where `List` means the `JList.List` constructor). -/
abbrev JValues := List JValue

/-- Observation function (not from the source): the elements of a
homogeneous list, each injected into `JValue` (the `element.into()` of
`convert_list_inner`). -/
def JList.toValues : JList → JValues
  | .End => []
  | .Byte l => l.map JValue.Byte
  | .Short l => l.map JValue.Short
  | .Int l => l.map JValue.Int
  | .Long l => l.map JValue.Long
  | .Float l => l.map JValue.Float
  | .Double l => l.map JValue.Double
  | .ByteArray l => l.map JValue.ByteArray
  | .String l => l.map JValue.String
  | .List l => l.map JValue.List
  | .Compound l => l.map JValue.Compound
  | .IntArray l => l.map JValue.IntArray
  | .LongArray l => l.map JValue.LongArray

/-- Observation function (not from the source): the NBT type tag of a
value, used to state which pushes succeed. -/
inductive JKind : Type where
  | byte | short | int | long | float | double | byteArray | string
  | list | compound | intArray | longArray
deriving DecidableEq, Repr

/-- The type tag of a value. -/
def JValue.kind : JValue → JKind
  | .Byte _ => .byte
  | .Short _ => .short
  | .Int _ => .int
  | .Long _ => .long
  | .Float _ => .float
  | .Double _ => .double
  | .ByteArray _ => .byteArray
  | .String _ => .string
  | .List _ => .list
  | .Compound _ => .compound
  | .IntArray _ => .intArray
  | .LongArray _ => .longArray

/-- `convert_list_inner` (`src/utils.rs:298-315`): drain the input,
convert each element, `try_push` it into the result (initially
`JList::new() = End`), and `&=` the success flag; the caller logs a
warning when the flag ends up `false`. -/
def convert_list_inner (conv : JValue → DataVersion → DataVersion → JValue)
    (in_list : List JValue) (f t : DataVersion) : JList × Bool :=
  in_list.foldl
    (fun acc e =>
      let e2 := conv e f t
      let p := acc.1.try_push e2
      (p.1, acc.2 && p.2))
    (JList.End, true)

/-- `convert_dynamic_list_in_map` (`src/utils.rs:289-359`).  The second
component of the result records whether the non-homogeneity warning was
logged (`warn!("Result of list conversion was not homogenous")`). -/
def convert_dynamic_list_in_map (conv : JValue → DataVersion → DataVersion → JValue)
    (data : JCompound) (path : String) (f t : DataVersion) : JCompound × Bool :=
  match JCompound.get data path with
  | some (JValue.List lst) =>
    match lst with
    | JList.End => (JCompound.insert data path (JValue.List JList.End), false)
    | JList.Byte l =>
      let r := convert_list_inner conv (l.map JValue.Byte) f t
      (JCompound.insert data path (JValue.List r.1), !r.2)
    | JList.Short l =>
      let r := convert_list_inner conv (l.map JValue.Short) f t
      (JCompound.insert data path (JValue.List r.1), !r.2)
    | JList.Int l =>
      let r := convert_list_inner conv (l.map JValue.Int) f t
      (JCompound.insert data path (JValue.List r.1), !r.2)
    | JList.Long l =>
      let r := convert_list_inner conv (l.map JValue.Long) f t
      (JCompound.insert data path (JValue.List r.1), !r.2)
    | JList.Float l =>
      let r := convert_list_inner conv (l.map JValue.Float) f t
      (JCompound.insert data path (JValue.List r.1), !r.2)
    | JList.Double l =>
      let r := convert_list_inner conv (l.map JValue.Double) f t
      (JCompound.insert data path (JValue.List r.1), !r.2)
    | JList.ByteArray l =>
      let r := convert_list_inner conv (l.map JValue.ByteArray) f t
      (JCompound.insert data path (JValue.List r.1), !r.2)
    | JList.String l =>
      let r := convert_list_inner conv (l.map JValue.String) f t
      (JCompound.insert data path (JValue.List r.1), !r.2)
    | JList.List l =>
      let r := convert_list_inner conv (l.map JValue.List) f t
      (JCompound.insert data path (JValue.List r.1), !r.2)
    | JList.Compound l =>
      let r := convert_list_inner conv (l.map JValue.Compound) f t
      (JCompound.insert data path (JValue.List r.1), !r.2)
    | JList.IntArray l =>
      let r := convert_list_inner conv (l.map JValue.IntArray) f t
      (JCompound.insert data path (JValue.List r.1), !r.2)
    | JList.LongArray l =>
      let r := convert_list_inner conv (l.map JValue.LongArray) f t
      (JCompound.insert data path (JValue.List r.1), !r.2)
  | _ => (data, false)

/-- `rename_key` (`src/utils.rs:391-395`): remove-then-reinsert; no-op if
absent. -/
def rename_key (map : JCompound) (from_key to_key : String) : JCompound :=
  match JCompound.get map from_key with
  | some value => JCompound.insert (JCompound.remove map from_key) to_key value
  | none => map

/-- `rename_keys` (`src/utils.rs:397-409`): collect all `(old, new)` pairs
from the current keys, then remove every old key collecting `(new, value)`
pairs, then insert them all.  `map.remove(&from).unwrap()` panicking is
modelled by `none`. -/
def rename_keys (map : JCompound) (renamer : String → Option String) :
    Option JCompound :=
  let renames := map.keysOf.filterMap
    (fun key => (renamer key).map (fun new_key => (key, new_key)))
  let phase2 := renames.foldl
    (fun acc p =>
      match acc with
      | none => none
      | some (m, collected) =>
        match JCompound.get m p.1 with
        | none => none
        | some v => some (JCompound.remove m p.1, collected ++ [(p.2, v)]))
    (some (map, ([] : List (String × JValue))))
  match phase2 with
  | none => none
  | some (m, renamed) =>
    some (renamed.foldl (fun m kv => JCompound.insert m kv.1 kv.2) m)

/-- The duplicate scan of `get_mut_multi` (`src/utils.rs:421-429`): the
double loop `for i in 0..N-1 { for j in i+1..N { keys[i] == keys[j] }}`,
expressed as head-vs-rest recursion. -/
def hasNonUniqueKeys (keys : List String) : Bool :=
  match keys with
  | [] => false
  | k :: rest => rest.contains k || hasNonUniqueKeys rest

/-- `get_mut_multi` (`src/utils.rs:411-437`): `none` models the
`panic!("keys are not all unique")`; otherwise one optional accessor per
requested key (present ⇒ `some`, absent ⇒ `none`). -/
def get_mut_multi (map : JCompound) (keys : List String) :
    Option (List (Option JValue)) :=
  if hasNonUniqueKeys keys then none
  else some (keys.map (fun key => JCompound.get map key))

/-! ## Basic lemmas about the embedding -/

/-- Sortedness invariant of a converter vector (non-strict: equal
`to_version`s are allowed). -/
def SortedConverters {δ : Type} (cs : List (Converter δ)) : Prop :=
  cs.Pairwise (fun a b => a.to_version ≤ b.to_version)

instance {δ : Type} (cs : List (Converter δ)) : Decidable (SortedConverters cs) :=
  inferInstanceAs (Decidable (cs.Pairwise _))

/-- Classify events. -/
def isConvEvent : Event → Bool
  | .conv _ => true
  | _ => false

/-- The trace a pre-hook run of a bucket produces: one `preHook` event per
hook, in list order. -/
def preTraceOf {δ : Type} (hs : List (Hook δ)) : List Event :=
  hs.map (fun h => Event.preHook h.label)

/-- The trace a post-hook run of a bucket produces (forward order). -/
def postTraceOf {δ : Type} (hs : List (Hook δ)) : List Event :=
  hs.map (fun h => Event.postHook h.label)

/-- The trace a walker run of a bucket produces. -/
def walkTraceOf {δ : Type} (ws : List (Walker δ)) : List Event :=
  ws.map (fun w => Event.walk w.label)

/-- The in-range test `from < to_version ∧ to_version ≤ to` of the claims. -/
def inRangeB (f t : DataVersion) {δ : Type} (c : Converter δ) : Bool :=
  decide (f < c.to_version) && decide (c.to_version ≤ t)

/-- The converters the loop actually applies, in order: skipping those at
or below `from_version` and cutting at the first one above `to_version`. -/
def appliedConverters {δ : Type} (f t : DataVersion) :
    List (Converter δ) → List (Converter δ)
  | [] => []
  | c :: rest =>
    if c.to_version ≤ f then appliedConverters f t rest
    else if t < c.to_version then []
    else c :: appliedConverters f t rest

/-- The events one applied converter contributes in the Map/Object/Dynamic
loop: floor pre bucket at `converter.to_version` in list order, the
conversion, floor post bucket at the call's `to_version` in reverse order. -/
def segTrace {δ : Type} (hooks : VersionMap (Hook δ)) (_f t : DataVersion)
    (c : Converter δ) : List Event :=
  preTraceOf ((floorBucket hooks c.to_version).getD [])
    ++ Event.conv c.label
      :: postTraceOf ((floorBucket hooks t).getD []).reverse

/-- Same for the `IdDataType` loop, whose post-hooks run in forward order. -/
def segTraceId {δ : Type} (hooks : VersionMap (Hook δ)) (_f t : DataVersion)
    (c : Converter δ) : List Event :=
  preTraceOf ((floorBucket hooks c.to_version).getD [])
    ++ Event.conv c.label
      :: postTraceOf ((floorBucket hooks t).getD [])

/-- The document state at which `IdDataType::convert` reads the `"id"`
field (`src/convert.rs:744`): after the converter loop, the reversed
trailing pre-hooks and the generic floor walker bucket have mutated it. -/
def idStageDoc (dt : IdDataType) (d : JCompound) (f t : DataVersion) : JCompound :=
  let r1 := convertLoopId dt.structure_hooks dt.structure_converters d f t
  let hb := (floorBucket dt.structure_hooks t).getD []
  let r2 := runPre hb.reverse r1.1 f t
  let wb := (floorBucket dt.structure_walkers t).getD []
  (runWalk wb r2.1 f t).1

/-! ## Sample fixtures for witnesses -/

/-- An identity converter/walker/hook function on compounds. -/
def idMapFunc : JCompound → DataVersion → DataVersion → JCompound :=
  fun d _ _ => d

/-- An identity converter/hook function on values. -/
def idValFunc : JValue → DataVersion → DataVersion → JValue :=
  fun d _ _ => d

/-- A map type with converters at versions 1 and 3 (labels 1 and 2). -/
def sampleMapType : MapDataType :=
  ((MapDataType.new "m").add_structure_converter ⟨1, 0⟩ 1 idMapFunc
    ).add_structure_converter ⟨3, 0⟩ 2 idMapFunc

/-- An object type with converters at versions 1 and 3 (labels 1 and 2). -/
def sampleObjectType : ObjectDataType :=
  ((ObjectDataType.new "o").add_structure_converter ⟨1, 0⟩ 1 idValFunc
    ).add_structure_converter ⟨3, 0⟩ 2 idValFunc

/-- A dynamic type with converters at versions 1 and 3 (labels 1 and 2). -/
def sampleDynamicType : DynamicDataType :=
  ((DynamicDataType.new "d").add_structure_converter ⟨1, 0⟩ 1 idValFunc
    ).add_structure_converter ⟨3, 0⟩ 2 idValFunc

/-- An id type with converters at versions 1 and 3 (labels 1 and 2). -/
def sampleIdType : IdDataType :=
  ((IdDataType.new "i").add_structure_converter ⟨1, 0⟩ 1 idMapFunc
    ).add_structure_converter ⟨3, 0⟩ 2 idMapFunc

/-! ## Claim C2: hook ordering (corrected)

The claim asserts stack discipline (pre in list order, post in reverse
list order, matched pairs) for *every* variant.  `IdDataType::convert`
violates it: its trailing pre-hooks run over `hooks.iter().rev()`
(`src/convert.rs:730`) and its per-converter post-hooks run forward
(`src/convert.rs:719-721`). -/

/-- An `IdDataType` with one hook bucket at version 0 holding hooks
labelled 1 and 2, in that list order. -/
def sampleIdHooksType : IdDataType :=
  ((IdDataType.new "h").add_structure_hook ⟨0, 0⟩ ⟨1, idMapFunc, idMapFunc⟩
    ).add_structure_hook ⟨0, 0⟩ ⟨2, idMapFunc, idMapFunc⟩

/-- A `MapDataType` with the same hook bucket. -/
def sampleMapHooksType : MapDataType :=
  ((MapDataType.new "mh").add_structure_hook ⟨0, 0⟩ ⟨1, idMapFunc, idMapFunc⟩
    ).add_structure_hook ⟨0, 0⟩ ⟨2, idMapFunc, idMapFunc⟩

/-- Observation function (not from the source): the element type of a
homogeneous list, `none` for the untyped empty list. -/
def JList.kindOf : JList → Option JKind
  | .End => none
  | .Byte _ => some .byte
  | .Short _ => some .short
  | .Int _ => some .int
  | .Long _ => some .long
  | .Float _ => some .float
  | .Double _ => some .double
  | .ByteArray _ => some .byteArray
  | .String _ => some .string
  | .List _ => some .list
  | .Compound _ => some .compound
  | .IntArray _ => some .intArray
  | .LongArray _ => some .longArray

/-- Exact-key lookup in a version bucket map (`BTreeMap::get`),
used to state which bucket `copy_walkers` appends to. -/
def bucketGet {α : Type} (m : VersionMap α) (k : DataVersion) : Option (List α) :=
  match m with
  | [] => none
  | (k', b) :: rest => if k' = k then some b else bucketGet rest k

/-- Fixture for C7: walker 10 registered under `"foo"` at version 1,
walker 20 under `"bar"` at version 2, then
`copy_walkers(1, "foo", "bar")`. -/
def sampleCopyDt : IdDataType :=
  (((IdDataType.new "c").add_walker_for_id ⟨1, 0⟩ "foo" ⟨10, idMapFunc⟩
      ).add_walker_for_id ⟨2, 0⟩ "bar" ⟨20, idMapFunc⟩
    ).copy_walkers ⟨1, 0⟩ "foo" "bar"

theorem List.insertIdx_eq_take_cons_drop {α : Type} (l : List α) (x : α)
    (n : Nat) (h : n ≤ l.length) :
    l.insertIdx n x = l.take n ++ x :: l.drop n := by
  induction l generalizing n with
  | nil =>
    have : n = 0 := by simpa using h
    subst this
    rfl
  | cons a rest ih =>
    cases n with
    | zero => rfl
    | succ n =>
      rw [List.insertIdx_succ_cons, ih n (by simpa using h)]
      rfl

theorem sorted_le_iff_lt_countP (keys : List DataVersion) (target : DataVersion)
    (hs : keys.Pairwise (· ≤ ·)) :
    ∀ i, i < keys.length →
      ((keys.getD i default ≤ target)
        ↔ i < keys.countP (fun k => decide (k ≤ target))) := by
  induction keys with
  | nil => intro i hi; simp at hi
  | cons k rest ih =>
    rw [List.pairwise_cons] at hs
    intro i hi
    by_cases hk : k ≤ target
    · rw [List.countP_cons_of_pos _ _ (by simpa using hk)]
      cases i with
      | zero => simpa using hk
      | succ j =>
        rw [List.getD_cons_succ, ih hs.2 j (by simpa using hi),
          Nat.succ_lt_succ_iff]
    · have hall : ∀ x ∈ rest, ¬ x ≤ target :=
        fun x hx hxle => hk (le_trans (hs.1 x hx) hxle)
      have hm : (k :: rest).countP (fun k => decide (k ≤ target)) = 0 := by
        rw [List.countP_eq_zero]
        intro a ha
        rcases List.mem_cons.mp ha with rfl | ha
        · simpa using hk
        · simpa using hall a ha
      rw [hm]
      simp only [Nat.not_lt_zero, iff_false]
      cases i with
      | zero => simpa using hk
      | succ j =>
        rw [List.getD_cons_succ, List.getD_eq_getElem _ _ (by simpa using hi)]
        exact hall _ (List.getElem_mem _)

theorem sorted_take_le (keys : List DataVersion) (target : DataVersion)
    (hs : keys.Pairwise (· ≤ ·)) :
    ∀ a ∈ keys.take (keys.countP (fun k => decide (k ≤ target))), a ≤ target := by
  induction keys with
  | nil => simp
  | cons k rest ih =>
    rw [List.pairwise_cons] at hs
    by_cases hk : k ≤ target
    · rw [List.countP_cons_of_pos _ _ (by simpa using hk), List.take_succ_cons]
      intro a ha
      rcases List.mem_cons.mp ha with rfl | ha
      · exact hk
      · exact ih hs.2 a ha
    · have hm : (k :: rest).countP (fun k => decide (k ≤ target)) = 0 := by
        rw [List.countP_eq_zero]
        intro a ha
        rcases List.mem_cons.mp ha with rfl | ha
        · simpa using hk
        · exact by simpa using fun h => hk (le_trans (hs.1 a ha) h)
      rw [hm]
      simp

theorem sorted_drop_not_le (keys : List DataVersion) (target : DataVersion)
    (hs : keys.Pairwise (· ≤ ·)) :
    ∀ a ∈ keys.drop (keys.countP (fun k => decide (k ≤ target))), ¬ a ≤ target := by
  induction keys with
  | nil => simp
  | cons k rest ih =>
    rw [List.pairwise_cons] at hs
    by_cases hk : k ≤ target
    · rw [List.countP_cons_of_pos _ _ (by simpa using hk), List.drop_succ_cons]
      exact ih hs.2
    · have hm : (k :: rest).countP (fun k => decide (k ≤ target)) = 0 := by
        rw [List.countP_eq_zero]
        intro a ha
        rcases List.mem_cons.mp ha with rfl | ha
        · simpa using hk
        · exact by simpa using fun h => hk (le_trans (hs.1 a ha) h)
      rw [hm, List.drop_zero]
      intro a ha
      rcases List.mem_cons.mp ha with rfl | ha
      · exact hk
      · exact fun h => hk (le_trans (hs.1 a ha) h)

theorem bsearchLoop_sorted (keys : List DataVersion) (target : DataVersion)
    (hs : keys.Pairwise (· ≤ ·)) :
    ∀ fuel base size, 1 ≤ size → size ≤ fuel → base + size ≤ keys.length →
      (base < keys.countP (fun k => decide (k ≤ target))
        ∨ (keys.countP (fun k => decide (k ≤ target)) = 0 ∧ base = 0)) →
      keys.countP (fun k => decide (k ≤ target)) ≤ base + size →
      bsearchLoop (fun i => keys.getD i default) target fuel base size
        = if keys.countP (fun k => decide (k ≤ target)) = 0 then 0
          else keys.countP (fun k => decide (k ≤ target)) - 1 := by
  have hchar := sorted_le_iff_lt_countP keys target hs
  intro fuel
  induction fuel with
  | zero => intro base size h1 h2 _ _ _; omega
  | succ fuel ih =>
    intro base size h1 h2 h3 h4 h5
    by_cases hsz : 1 < size
    · have hhalf1 : 1 ≤ size / 2 := by omega
      have hhalf2 : size / 2 < size := by omega
      have hmidlt : base + size / 2 < keys.length := by omega
      have hstep : bsearchLoop (fun i => keys.getD i default) target (fuel + 1)
            base size
          = bsearchLoop (fun i => keys.getD i default) target fuel
              (if target < keys.getD (base + size / 2) default then base
               else base + size / 2)
              (size - size / 2) := by
        simp [bsearchLoop, hsz]
      rw [hstep]
      by_cases hc : target < keys.getD (base + size / 2) default
      · have hnle : ¬ keys.getD (base + size / 2) default ≤ target :=
          not_le.mpr hc
        have hm_le : keys.countP (fun k => decide (k ≤ target)) ≤ base + size / 2 := by
          by_contra hlt
          push_neg at hlt
          exact hnle ((hchar _ hmidlt).mpr hlt)
        rw [if_pos hc]
        exact ih base (size - size / 2) (by omega) (by omega) (by omega) h4
          (by omega)
      · have hle : keys.getD (base + size / 2) default ≤ target := not_lt.mp hc
        have hmid_m : base + size / 2 < keys.countP (fun k => decide (k ≤ target)) :=
          (hchar _ hmidlt).mp hle
        rw [if_neg hc]
        exact ih (base + size / 2) (size - size / 2) (by omega) (by omega)
          (by omega) (Or.inl hmid_m) (by omega)
    · have hbase : bsearchLoop (fun i => keys.getD i default) target (fuel + 1)
          base size = base := by
        simp [bsearchLoop, hsz]
      rw [hbase]
      rcases h4 with h4 | ⟨hm0, hb0⟩
      · rw [if_neg (by omega)]
        omega
      · rw [if_pos hm0]
        exact hb0

/-- The index `add_structure_converter` inserts at (`Ok(i) | Err(i) => i`),
characterised on a sorted key vector: writing `m` for the number of keys
`≤ target`, the index is `m-1` when the `m`-th key equals the target
(so the new entry lands immediately *before* the last equal key), and `m`
otherwise. -/
theorem rust_binary_search_index_sorted (keys : List DataVersion)
    (target : DataVersion) (hs : keys.Pairwise (· ≤ ·)) :
    (match rust_binary_search keys target with
      | .ok i => i
      | .error i => i)
      = if keys.countP (fun k => decide (k ≤ target)) = 0 then 0
        else if keys.getD (keys.countP (fun k => decide (k ≤ target)) - 1) default
            = target
          then keys.countP (fun k => decide (k ≤ target)) - 1
          else keys.countP (fun k => decide (k ≤ target)) := by
  have hchar := sorted_le_iff_lt_countP keys target hs
  by_cases hlen : keys.length = 0
  · have hkeys : keys = [] := List.length_eq_zero.mp hlen
    subst hkeys
    simp [rust_binary_search]
  · have hcle : keys.countP (fun k => decide (k ≤ target)) ≤ keys.length :=
      List.countP_le_length _
    have hloop := bsearchLoop_sorted keys target hs keys.length 0 keys.length
      (by omega) (le_refl _) (by omega)
      (by
        by_cases hm : keys.countP (fun k => decide (k ≤ target)) = 0
        · exact Or.inr ⟨hm, rfl⟩
        · exact Or.inl (by omega))
      (by omega)
    rw [rust_binary_search]
    simp only [if_neg hlen]
    rw [hloop]
    simp only [List.getD, List.get?_eq_getElem?] at hchar ⊢
    by_cases hm : keys.countP (fun k => decide (k ≤ target)) = 0
    · simp only [if_pos hm]
      have h0lt : 0 < keys.length := by omega
      have hnle : ¬ keys[0]?.getD default ≤ target := by
        rw [hchar 0 h0lt, hm]
        omega
      have hne : ¬ keys[0]?.getD default = target := fun he => hnle (le_of_eq he)
      have hngt : ¬ keys[0]?.getD default < target := fun hlt => hnle (le_of_lt hlt)
      simp [hne, hngt]
    · simp only [if_neg hm]
      have hm1lt : keys.countP (fun k => decide (k ≤ target)) - 1 < keys.length := by
        omega
      have hle : keys[keys.countP (fun k => decide (k ≤ target)) - 1]?.getD default
          ≤ target := by
        rw [hchar _ hm1lt]
        omega
      by_cases heq : keys[keys.countP (fun k => decide (k ≤ target)) - 1]?.getD default
          = target
      · simp [heq]
      · have hlt : keys[keys.countP (fun k => decide (k ≤ target)) - 1]?.getD default
            < target := lt_of_le_of_ne hle heq
        simp [heq, hlt]
        exact Nat.succ_pred_eq_of_pos (Nat.pos_of_ne_zero hm)

theorem sortedConverters_insert {δ : Type} (cs : List (Converter δ))
    (c : Converter δ) (idx : Nat) (hidx : idx ≤ cs.length)
    (hs : SortedConverters cs)
    (hlo : ∀ a ∈ cs.take idx, a.to_version ≤ c.to_version)
    (hhi : ∀ b ∈ cs.drop idx, c.to_version ≤ b.to_version) :
    SortedConverters (cs.insertIdx idx c) := by
  rw [List.insertIdx_eq_take_cons_drop _ _ _ hidx]
  have hsplit : SortedConverters (cs.take idx ++ cs.drop idx) := by
    rw [List.take_append_drop]
    exact hs
  rw [SortedConverters, List.pairwise_append] at hsplit
  rw [SortedConverters, List.pairwise_append]
  refine ⟨hsplit.1, ?_, ?_⟩
  · rw [List.pairwise_cons]
    exact ⟨hhi, hsplit.2.1⟩
  · intro a ha b hb
    rcases List.mem_cons.mp hb with rfl | hb
    · exact hlo a ha
    · exact hsplit.2.2 a ha b hb

theorem mem_take_map_to_version {δ : Type} {cs : List (Converter δ)}
    {a : Converter δ} {n : Nat} (ha : a ∈ cs.take n) :
    a.to_version ∈ (cs.map (fun x => x.to_version)).take n := by
  rw [← List.map_take]
  exact List.mem_map_of_mem _ ha

theorem mem_drop_map_to_version {δ : Type} {cs : List (Converter δ)}
    {a : Converter δ} {n : Nat} (ha : a ∈ cs.drop n) :
    a.to_version ∈ (cs.map (fun x => x.to_version)).drop n := by
  rw [← List.map_drop]
  exact List.mem_map_of_mem _ ha

/-- `add_structure_converter` preserves the sortedness invariant of the
converter vector. -/
theorem addConverterSorted_sorted {δ : Type} (cs : List (Converter δ))
    (c : Converter δ) (hs : SortedConverters cs) :
    SortedConverters (addConverterSorted cs c) := by
  have hkeys : (cs.map (fun x => x.to_version)).Pairwise (· ≤ ·) :=
    List.pairwise_map.mpr hs
  have hidx := rust_binary_search_index_sorted (cs.map (fun x => x.to_version))
    c.to_version hkeys
  have hcle : (cs.map (fun x => x.to_version)).countP
      (fun k => decide (k ≤ c.to_version)) ≤ cs.length := by
    calc (cs.map (fun x => x.to_version)).countP (fun k => decide (k ≤ c.to_version))
        ≤ (cs.map (fun x => x.to_version)).length := List.countP_le_length _
      _ = cs.length := by simp
  unfold addConverterSorted
  rw [hidx]
  by_cases hm : (cs.map (fun x => x.to_version)).countP
      (fun k => decide (k ≤ c.to_version)) = 0
  · rw [if_pos hm]
    refine sortedConverters_insert cs c 0 (Nat.zero_le _) hs (by simp) ?_
    intro b hb
    rw [List.drop_zero] at hb
    have hnb : ¬ b.to_version ≤ c.to_version := by
      have h0 := List.countP_eq_zero.mp hm b.to_version
        (List.mem_map_of_mem _ hb)
      simpa using h0
    exact le_of_lt (not_le.mp hnb)
  · rw [if_neg hm]
    by_cases heq : (cs.map (fun x => x.to_version)).getD
        ((cs.map (fun x => x.to_version)).countP
          (fun k => decide (k ≤ c.to_version)) - 1) default = c.to_version
    · rw [if_pos heq]
      refine sortedConverters_insert cs c _ (by omega) hs ?_ ?_
      · intro a ha
        have hmem := mem_take_map_to_version ha
        have htt : ((cs.map (fun x => x.to_version)).take
              ((cs.map (fun x => x.to_version)).countP
                (fun k => decide (k ≤ c.to_version)))).take
              ((cs.map (fun x => x.to_version)).countP
                (fun k => decide (k ≤ c.to_version)) - 1)
            = (cs.map (fun x => x.to_version)).take
              ((cs.map (fun x => x.to_version)).countP
                (fun k => decide (k ≤ c.to_version)) - 1) := by
          rw [List.take_take]
          congr 1
          omega
        rw [← htt] at hmem
        exact sorted_take_le _ _ hkeys _ (List.take_subset _ _ hmem)
      · intro b hb
        have hmem := mem_drop_map_to_version hb
        have hm1lt : (cs.map (fun x => x.to_version)).countP
            (fun k => decide (k ≤ c.to_version)) - 1
              < (cs.map (fun x => x.to_version)).length := by
          simp only [List.length_map]
          omega
        rw [List.drop_eq_getElem_cons hm1lt] at hmem
        rcases List.mem_cons.mp hmem with hhd | htl
        · have : b.to_version = c.to_version := by
            rw [hhd]
            rw [List.getD_eq_getElem?_getD, List.getElem?_eq_getElem hm1lt] at heq
            simpa using heq
          exact le_of_eq this.symm
        · have hsucc : (cs.map (fun x => x.to_version)).countP
              (fun k => decide (k ≤ c.to_version)) - 1 + 1
                = (cs.map (fun x => x.to_version)).countP
                  (fun k => decide (k ≤ c.to_version)) := by omega
          rw [hsucc] at htl
          exact le_of_lt (not_le.mp (sorted_drop_not_le _ _ hkeys _ htl))
    · rw [if_neg heq]
      refine sortedConverters_insert cs c _ hcle hs ?_ ?_
      · intro a ha
        exact sorted_take_le _ _ hkeys _ (mem_take_map_to_version ha)
      · intro b hb
        exact le_of_lt (not_le.mp
          (sorted_drop_not_le _ _ hkeys _ (mem_drop_map_to_version hb)))

/-- Inserting a converter whose `to_version` is not yet present lands at
the insertion point `m` = number of keys `≤ to_version`. -/
theorem addConverterSorted_fresh {δ : Type} (cs : List (Converter δ))
    (c : Converter δ) (hs : SortedConverters cs)
    (hv : ∀ x ∈ cs, x.to_version ≠ c.to_version) :
    addConverterSorted cs c
      = cs.take ((cs.map (fun x => x.to_version)).countP
            (fun k => decide (k ≤ c.to_version)))
        ++ c :: cs.drop ((cs.map (fun x => x.to_version)).countP
            (fun k => decide (k ≤ c.to_version))) := by
  have hkeys : (cs.map (fun x => x.to_version)).Pairwise (· ≤ ·) :=
    List.pairwise_map.mpr hs
  have hidx := rust_binary_search_index_sorted (cs.map (fun x => x.to_version))
    c.to_version hkeys
  have hcle : (cs.map (fun x => x.to_version)).countP
      (fun k => decide (k ≤ c.to_version)) ≤ cs.length := by
    calc (cs.map (fun x => x.to_version)).countP (fun k => decide (k ≤ c.to_version))
        ≤ (cs.map (fun x => x.to_version)).length := List.countP_le_length _
      _ = cs.length := by simp
  unfold addConverterSorted
  rw [hidx]
  by_cases hm : (cs.map (fun x => x.to_version)).countP
      (fun k => decide (k ≤ c.to_version)) = 0
  · rw [if_pos hm, hm]
    exact List.insertIdx_eq_take_cons_drop _ _ _ (Nat.zero_le _)
  · have hm1lt : (cs.map (fun x => x.to_version)).countP
        (fun k => decide (k ≤ c.to_version)) - 1
          < (cs.map (fun x => x.to_version)).length := by
      simp only [List.length_map]
      omega
    have hne : ¬ (cs.map (fun x => x.to_version)).getD
        ((cs.map (fun x => x.to_version)).countP
          (fun k => decide (k ≤ c.to_version)) - 1) default = c.to_version := by
      rw [List.getD_eq_getElem?_getD, List.getElem?_eq_getElem hm1lt]
      simp only [List.getElem_map, Option.getD_some]
      exact hv _ (List.getElem_mem _)
    rw [if_neg hm, if_neg hne]
    exact List.insertIdx_eq_take_cons_drop _ _ _ hcle

/-- Registering two converters with the same fresh `to_version` puts the
*second* registration immediately before the first: the final vector is
`take m ++ [c2, c1] ++ drop m`. -/
theorem addConverterSorted_fresh_pair {δ : Type} (cs : List (Converter δ))
    (c1 c2 : Converter δ) (hs : SortedConverters cs)
    (hv : ∀ x ∈ cs, x.to_version ≠ c1.to_version)
    (h21 : c2.to_version = c1.to_version) :
    addConverterSorted (addConverterSorted cs c1) c2
      = cs.take ((cs.map (fun x => x.to_version)).countP
            (fun k => decide (k ≤ c1.to_version)))
        ++ c2 :: c1 :: cs.drop ((cs.map (fun x => x.to_version)).countP
            (fun k => decide (k ≤ c1.to_version))) := by
  have hkeys : (cs.map (fun x => x.to_version)).Pairwise (· ≤ ·) :=
    List.pairwise_map.mpr hs
  have hcle : (cs.map (fun x => x.to_version)).countP
      (fun k => decide (k ≤ c1.to_version)) ≤ cs.length := by
    calc (cs.map (fun x => x.to_version)).countP (fun k => decide (k ≤ c1.to_version))
        ≤ (cs.map (fun x => x.to_version)).length := List.countP_le_length _
      _ = cs.length := by simp
  have hstep1 := addConverterSorted_fresh cs c1 hs hv
  have hs1 : SortedConverters (cs.take ((cs.map (fun x => x.to_version)).countP
        (fun k => decide (k ≤ c1.to_version)))
      ++ c1 :: cs.drop ((cs.map (fun x => x.to_version)).countP
        (fun k => decide (k ≤ c1.to_version)))) := by
    rw [← hstep1]
    exact addConverterSorted_sorted cs c1 hs
  have hlen_take : (cs.take ((cs.map (fun x => x.to_version)).countP
      (fun k => decide (k ≤ c1.to_version)))).length
        = (cs.map (fun x => x.to_version)).countP
            (fun k => decide (k ≤ c1.to_version)) := by
    rw [List.length_take]
    omega
  have hkeys1 : ((cs.take ((cs.map (fun x => x.to_version)).countP
        (fun k => decide (k ≤ c1.to_version)))
      ++ c1 :: cs.drop ((cs.map (fun x => x.to_version)).countP
        (fun k => decide (k ≤ c1.to_version)))).map (fun x => x.to_version)).Pairwise
          (· ≤ ·) :=
    List.pairwise_map.mpr hs1
  have hidx2 := rust_binary_search_index_sorted
    ((cs.take ((cs.map (fun x => x.to_version)).countP
        (fun k => decide (k ≤ c1.to_version)))
      ++ c1 :: cs.drop ((cs.map (fun x => x.to_version)).countP
        (fun k => decide (k ≤ c1.to_version)))).map (fun x => x.to_version))
    c2.to_version hkeys1
  have hkeys1_eq : ((cs.take ((cs.map (fun x => x.to_version)).countP
        (fun k => decide (k ≤ c1.to_version)))
      ++ c1 :: cs.drop ((cs.map (fun x => x.to_version)).countP
        (fun k => decide (k ≤ c1.to_version)))).map (fun x => x.to_version))
      = (cs.map (fun x => x.to_version)).take
          ((cs.map (fun x => x.to_version)).countP
            (fun k => decide (k ≤ c1.to_version)))
        ++ c1.to_version :: (cs.map (fun x => x.to_version)).drop
          ((cs.map (fun x => x.to_version)).countP
            (fun k => decide (k ≤ c1.to_version))) := by
    simp [List.map_take, List.map_drop]
  have hcount_take : ((cs.map (fun x => x.to_version)).take
      ((cs.map (fun x => x.to_version)).countP
        (fun k => decide (k ≤ c1.to_version)))).countP
          (fun k => decide (k ≤ c1.to_version))
      = (cs.map (fun x => x.to_version)).countP
          (fun k => decide (k ≤ c1.to_version)) := by
    rw [List.countP_eq_length.mpr]
    · rw [List.length_take]
      simp only [List.length_map]
      simp only [List.length_map] at hcle
      omega
    · intro a ha
      simpa using sorted_take_le _ _ hkeys a ha
  have hcount_drop : ((cs.map (fun x => x.to_version)).drop
      ((cs.map (fun x => x.to_version)).countP
        (fun k => decide (k ≤ c1.to_version)))).countP
          (fun k => decide (k ≤ c1.to_version)) = 0 := by
    rw [List.countP_eq_zero]
    intro a ha
    simpa using sorted_drop_not_le _ _ hkeys a ha
  have hm1 : ((cs.take ((cs.map (fun x => x.to_version)).countP
        (fun k => decide (k ≤ c1.to_version)))
      ++ c1 :: cs.drop ((cs.map (fun x => x.to_version)).countP
        (fun k => decide (k ≤ c1.to_version)))).map (fun x => x.to_version)).countP
          (fun k => decide (k ≤ c2.to_version))
      = (cs.map (fun x => x.to_version)).countP
          (fun k => decide (k ≤ c1.to_version)) + 1 := by
    rw [h21, hkeys1_eq, List.countP_append,
      List.countP_cons_of_pos _ _ (by simp), hcount_take, hcount_drop]
  rw [hstep1]
  unfold addConverterSorted
  rw [hidx2, hm1]
  have hgetd : ((cs.take ((cs.map (fun x => x.to_version)).countP
        (fun k => decide (k ≤ c1.to_version)))
      ++ c1 :: cs.drop ((cs.map (fun x => x.to_version)).countP
        (fun k => decide (k ≤ c1.to_version)))).map (fun x => x.to_version)).getD
          ((cs.map (fun x => x.to_version)).countP
            (fun k => decide (k ≤ c1.to_version)) + 1 - 1) default
      = c2.to_version := by
    rw [hkeys1_eq, Nat.succ_sub_one, List.getD_eq_getElem?_getD]
    have hmlt : (cs.map (fun x => x.to_version)).countP
        (fun k => decide (k ≤ c1.to_version))
          < ((cs.map (fun x => x.to_version)).take
              ((cs.map (fun x => x.to_version)).countP
                (fun k => decide (k ≤ c1.to_version)))
            ++ c1.to_version :: (cs.map (fun x => x.to_version)).drop
              ((cs.map (fun x => x.to_version)).countP
                (fun k => decide (k ≤ c1.to_version)))).length := by
      rw [List.length_append, List.length_take]
      simp only [List.length_cons, List.length_map]
      simp only [List.length_map] at hcle
      omega
    rw [List.getElem?_eq_getElem hmlt]
    have hlt : ((cs.map (fun x => x.to_version)).take
        ((cs.map (fun x => x.to_version)).countP
          (fun k => decide (k ≤ c1.to_version)))).length
          ≤ (cs.map (fun x => x.to_version)).countP
              (fun k => decide (k ≤ c1.to_version)) := by
      rw [List.length_take]
      omega
    rw [List.getElem_append_right hlt]
    have : (cs.map (fun x => x.to_version)).countP
          (fun k => decide (k ≤ c1.to_version))
        - ((cs.map (fun x => x.to_version)).take
            ((cs.map (fun x => x.to_version)).countP
              (fun k => decide (k ≤ c1.to_version)))).length = 0 := by
      rw [List.length_take]
      simp only [List.length_map]
      simp only [List.length_map] at hcle
      omega
    simp only [Option.getD_some]
    simp only [this]
    rw [List.getElem_cons_zero]
    exact h21.symm
  have h0 : ¬ ((cs.map (fun x => x.to_version)).countP
      (fun k => decide (k ≤ c1.to_version)) + 1 = 0) := Nat.succ_ne_zero _
  rw [if_neg h0, if_pos hgetd]
  show List.insertIdx ((cs.map (fun x => x.to_version)).countP
      (fun k => decide (k ≤ c1.to_version))) c2 _ = _
  have hle2 : (cs.map (fun x => x.to_version)).countP
      (fun k => decide (k ≤ c1.to_version))
        ≤ (cs.take ((cs.map (fun x => x.to_version)).countP
            (fun k => decide (k ≤ c1.to_version)))
          ++ c1 :: cs.drop ((cs.map (fun x => x.to_version)).countP
            (fun k => decide (k ≤ c1.to_version)))).length := by
    rw [List.length_append, hlen_take]
    simp only [List.length_cons]
    omega
  rw [List.insertIdx_eq_take_cons_drop _ _ _ hle2,
    List.take_left' hlen_take, List.drop_left' hlen_take]

theorem DataVersion.le_def (a b : DataVersion) :
    a ≤ b ↔ a.version < b.version ∨ (a.version = b.version ∧ a.step ≤ b.step) := by
  change a.toLexPair ≤ b.toLexPair ↔ _
  cases a; cases b
  simp [DataVersion.toLexPair, Prod.Lex.le_iff]

theorem DataVersion.lt_def (a b : DataVersion) :
    a < b ↔ a.version < b.version ∨ (a.version = b.version ∧ a.step < b.step) := by
  change a.toLexPair < b.toLexPair ↔ _
  cases a; cases b
  simp [DataVersion.toLexPair, Prod.Lex.lt_iff]

theorem runPre_trace {δ : Type} (hs : List (Hook δ)) (d : δ) (f t : DataVersion) :
    (runPre hs d f t).2 = preTraceOf hs := by
  induction hs generalizing d with
  | nil => rfl
  | cons h rest ih => simp [runPre, preTraceOf, ih]

theorem runPost_trace {δ : Type} (hs : List (Hook δ)) (d : δ) (f t : DataVersion) :
    (runPost hs d f t).2 = postTraceOf hs := by
  induction hs generalizing d with
  | nil => rfl
  | cons h rest ih => simp [runPost, postTraceOf, ih]

theorem runWalk_trace {δ : Type} (ws : List (Walker δ)) (d : δ) (f t : DataVersion) :
    (runWalk ws d f t).2 = walkTraceOf ws := by
  induction ws generalizing d with
  | nil => rfl
  | cons w rest ih => simp [runWalk, walkTraceOf, ih]

theorem preTraceOf_no_conv {δ : Type} (hs : List (Hook δ)) :
    (preTraceOf hs).filter isConvEvent = [] := by
  induction hs with
  | nil => rfl
  | cons h rest ih => simp [preTraceOf, List.filter, isConvEvent] at ih ⊢

theorem postTraceOf_no_conv {δ : Type} (hs : List (Hook δ)) :
    (postTraceOf hs).filter isConvEvent = [] := by
  induction hs with
  | nil => rfl
  | cons h rest ih => simp [postTraceOf, List.filter, isConvEvent] at ih ⊢

theorem walkTraceOf_no_conv {δ : Type} (ws : List (Walker δ)) :
    (walkTraceOf ws).filter isConvEvent = [] := by
  induction ws with
  | nil => rfl
  | cons w rest ih => simp [walkTraceOf, List.filter, isConvEvent] at ih ⊢

theorem convertLoop_trace {δ : Type} (hooks : VersionMap (Hook δ))
    (convs : List (Converter δ)) (d : δ) (f t : DataVersion) :
    (convertLoop hooks convs d f t).2
      = ((appliedConverters f t convs).map (segTrace hooks f t)).flatten := by
  induction convs generalizing d with
  | nil => rfl
  | cons c rest ih =>
    by_cases h1 : c.to_version ≤ f
    · simp [convertLoop, appliedConverters, h1, ih]
    · by_cases h2 : t < c.to_version
      · simp [convertLoop, appliedConverters, h1, h2]
      · simp only [convertLoop, appliedConverters, h1, h2, if_false, if_true,
          List.map_cons, List.flatten_cons]
        rw [runPre_trace, runPost_trace, ih]
        simp [segTrace]

theorem convertLoopId_trace {δ : Type} (hooks : VersionMap (Hook δ))
    (convs : List (Converter δ)) (d : δ) (f t : DataVersion) :
    (convertLoopId hooks convs d f t).2
      = ((appliedConverters f t convs).map (segTraceId hooks f t)).flatten := by
  induction convs generalizing d with
  | nil => rfl
  | cons c rest ih =>
    by_cases h1 : c.to_version ≤ f
    · simp [convertLoopId, appliedConverters, h1, ih]
    · by_cases h2 : t < c.to_version
      · simp [convertLoopId, appliedConverters, h1, h2]
      · simp only [convertLoopId, appliedConverters, h1, h2, if_false, if_true,
          List.map_cons, List.flatten_cons]
        rw [runPre_trace, runPost_trace, ih]
        simp [segTraceId]

/-- On a sorted converter vector the loop applies exactly the converters
in the half-open interval `(from_version, to_version]`. -/
theorem appliedConverters_eq_filter {δ : Type} (f t : DataVersion)
    (convs : List (Converter δ)) (hs : SortedConverters convs) :
    appliedConverters f t convs = convs.filter (inRangeB f t) := by
  induction convs with
  | nil => rfl
  | cons c rest ih =>
    rw [SortedConverters, List.pairwise_cons] at hs
    by_cases h1 : c.to_version ≤ f
    · have : inRangeB f t c = false := by
        simp [inRangeB]; intro h; exact absurd h (not_lt.mpr h1)
      simp [appliedConverters, h1, List.filter, this, ih hs.2]
    · by_cases h2 : t < c.to_version
      · have hc : inRangeB f t c = false := by
          simp [inRangeB]; intro _; exact h2
        have : rest.filter (inRangeB f t) = [] := by
          rw [List.filter_eq_nil_iff]
          intro b hb
          have : t < b.to_version := lt_of_lt_of_le h2 (hs.1 b hb)
          simp [inRangeB]; intro _; exact this
        simp [appliedConverters, h1, h2, List.filter, hc, this]
      · have : inRangeB f t c = true := by
          simp [inRangeB]; exact ⟨not_le.mp h1, not_lt.mp h2⟩
        simp [appliedConverters, h1, h2, List.filter, this, ih hs.2]

/-- When no converter is in range (`to_version ≤ from_version`) the loop
does nothing at all. -/
theorem convertLoop_no_op {δ : Type} (hooks : VersionMap (Hook δ))
    (convs : List (Converter δ)) (d : δ) (f t : DataVersion) (h : t ≤ f) :
    convertLoop hooks convs d f t = (d, []) := by
  induction convs with
  | nil => rfl
  | cons c rest ih =>
    by_cases h1 : c.to_version ≤ f
    · simp [convertLoop, h1, ih]
    · have : t < c.to_version := lt_of_le_of_lt h (not_le.mp h1)
      simp [convertLoop, h1, this]

theorem convertLoopId_no_op {δ : Type} (hooks : VersionMap (Hook δ))
    (convs : List (Converter δ)) (d : δ) (f t : DataVersion) (h : t ≤ f) :
    convertLoopId hooks convs d f t = (d, []) := by
  induction convs with
  | nil => rfl
  | cons c rest ih =>
    by_cases h1 : c.to_version ≤ f
    · simp [convertLoopId, h1, ih]
    · have : t < c.to_version := lt_of_le_of_lt h (not_le.mp h1)
      simp [convertLoopId, h1, this]

theorem trailingPass_trace {δ : Type} (hooks : VersionMap (Hook δ))
    (walkers : VersionMap (Walker δ)) (d : δ) (f t : DataVersion) :
    (trailingPass hooks walkers d f t).2
      = preTraceOf ((floorBucket hooks t).getD [])
        ++ walkTraceOf ((floorBucket walkers t).getD [])
        ++ postTraceOf ((floorBucket hooks t).getD []).reverse := by
  simp [trailingPass, runPre_trace, runWalk_trace, runPost_trace]

theorem segTrace_filter_conv {δ : Type} (hooks : VersionMap (Hook δ))
    (f t : DataVersion) (c : Converter δ) :
    (segTrace hooks f t c).filter isConvEvent = [Event.conv c.label] := by
  simp [segTrace, List.filter_append, preTraceOf_no_conv, postTraceOf_no_conv,
    List.filter, isConvEvent]

theorem segTraceId_filter_conv {δ : Type} (hooks : VersionMap (Hook δ))
    (f t : DataVersion) (c : Converter δ) :
    (segTraceId hooks f t c).filter isConvEvent = [Event.conv c.label] := by
  simp [segTraceId, List.filter_append, preTraceOf_no_conv, postTraceOf_no_conv,
    List.filter, isConvEvent]

theorem segTraces_flatten_filter_conv {δ : Type} (hooks : VersionMap (Hook δ))
    (f t : DataVersion) (cs : List (Converter δ)) :
    ((cs.map (segTrace hooks f t)).flatten).filter isConvEvent
      = cs.map (fun c => Event.conv c.label) := by
  induction cs with
  | nil => rfl
  | cons c rest ih =>
    simp only [List.map_cons, List.flatten_cons, List.filter_append, ih,
      segTrace_filter_conv]
    rfl

theorem segTracesId_flatten_filter_conv {δ : Type} (hooks : VersionMap (Hook δ))
    (f t : DataVersion) (cs : List (Converter δ)) :
    ((cs.map (segTraceId hooks f t)).flatten).filter isConvEvent
      = cs.map (fun c => Event.conv c.label) := by
  induction cs with
  | nil => rfl
  | cons c rest ih =>
    simp only [List.map_cons, List.flatten_cons, List.filter_append, ih,
      segTraceId_filter_conv]
    rfl

theorem trailingPass_filter_conv {δ : Type} (hooks : VersionMap (Hook δ))
    (walkers : VersionMap (Walker δ)) (d : δ) (f t : DataVersion) :
    ((trailingPass hooks walkers d f t).2).filter isConvEvent = [] := by
  rw [trailingPass_trace]
  simp [List.filter_append, preTraceOf_no_conv, postTraceOf_no_conv,
    walkTraceOf_no_conv]

theorem runIdWalkers_filter_conv (wbi : WalkersById) (d : JCompound)
    (f t : DataVersion) :
    ((runIdWalkers wbi d f t).2).filter isConvEvent = [] := by
  unfold runIdWalkers
  repeat' split
  all_goals simp [runWalk_trace, walkTraceOf_no_conv]

/-- The id-stage trace of `IdDataType::convert` is a pure concatenation of
loop trace, trailing pre-hooks (reversed), generic walkers, id walkers and
trailing post-hooks (reversed). -/
theorem IdDataType.convert_trace (dt : IdDataType) (d : JCompound)
    (f t : DataVersion) :
    (dt.convert d f t).2
      = (convertLoopId dt.structure_hooks dt.structure_converters d f t).2
        ++ preTraceOf ((floorBucket dt.structure_hooks t).getD []).reverse
        ++ walkTraceOf ((floorBucket dt.structure_walkers t).getD [])
        ++ (runIdWalkers dt.walkers_by_id (idStageDoc dt d f t) f t).2
        ++ postTraceOf ((floorBucket dt.structure_hooks t).getD []).reverse := by
  simp [IdDataType.convert, idStageDoc, runPre_trace, runWalk_trace,
    runPost_trace]

/-! ## Claim C1: interval correctness of the converter loop -/

/-- **C1.**  For every `DataType` variant (`MapDataType`, `ObjectDataType`,
`DynamicDataType`, `IdDataType`), every document and every version pair,
`convert(doc, from, to)` invokes exactly the registered converters whose
`to_version` satisfies `from < to_version ≤ to`, each exactly once (and in
vector order); a converter with `to_version ≤ from` or `to_version > to`
never contributes an invocation.  The hypothesis is the sortedness
invariant of the converter vector, which `add_structure_converter`
maintains (`addConverterSorted_sorted`). -/
theorem claim_C1_interval_correctness :
    (∀ (dt : MapDataType) (d : JCompound) (f t : DataVersion),
      SortedConverters dt.structure_converters →
      (dt.convert d f t).2.filter isConvEvent
        = (dt.structure_converters.filter (inRangeB f t)).map
            (fun c => Event.conv c.label))
  ∧ (∀ (dt : ObjectDataType) (d : JValue) (f t : DataVersion),
      SortedConverters dt.converters →
      (dt.convert d f t).2.filter isConvEvent
        = (dt.converters.filter (inRangeB f t)).map
            (fun c => Event.conv c.label))
  ∧ (∀ (dt : DynamicDataType) (d : JValue) (f t : DataVersion),
      SortedConverters dt.structure_converters →
      (dt.convert d f t).2.filter isConvEvent
        = (dt.structure_converters.filter (inRangeB f t)).map
            (fun c => Event.conv c.label))
  ∧ (∀ (dt : IdDataType) (d : JCompound) (f t : DataVersion),
      SortedConverters dt.structure_converters →
      (dt.convert d f t).2.filter isConvEvent
        = (dt.structure_converters.filter (inRangeB f t)).map
            (fun c => Event.conv c.label)) := by
  refine ⟨?_, ?_, ?_, ?_⟩
  · intro dt d f t hs
    simp only [MapDataType.convert, List.filter_append]
    rw [convertLoop_trace, appliedConverters_eq_filter _ _ _ hs,
      segTraces_flatten_filter_conv, trailingPass_filter_conv,
      List.append_nil]
  · intro dt d f t hs
    simp only [ObjectDataType.convert]
    rw [convertLoop_trace, appliedConverters_eq_filter _ _ _ hs,
      segTraces_flatten_filter_conv]
  · intro dt d f t hs
    simp only [DynamicDataType.convert, List.filter_append]
    rw [convertLoop_trace, appliedConverters_eq_filter _ _ _ hs,
      segTraces_flatten_filter_conv, trailingPass_filter_conv,
      List.append_nil]
  · intro dt d f t hs
    rw [IdDataType.convert_trace]
    simp only [List.filter_append]
    rw [convertLoopId_trace, appliedConverters_eq_filter _ _ _ hs,
      segTracesId_flatten_filter_conv, preTraceOf_no_conv,
      walkTraceOf_no_conv, runIdWalkers_filter_conv, postTraceOf_no_conv]
    simp

/-- Witness for C1: the two-converter fixtures at `from = 0 < 1 ≤ to = 2 < 3`
run exactly the label-1 converter, on all four variants. -/
theorem claim_C1_interval_correctness_witness :
    ((sampleMapType.convert [] ⟨0, 0⟩ ⟨2, 0⟩).2.filter isConvEvent
      = (sampleMapType.structure_converters.filter (inRangeB ⟨0, 0⟩ ⟨2, 0⟩)).map
          (fun c => Event.conv c.label))
  ∧ ((sampleObjectType.convert (JValue.Byte 0) ⟨0, 0⟩ ⟨2, 0⟩).2.filter isConvEvent
      = (sampleObjectType.converters.filter (inRangeB ⟨0, 0⟩ ⟨2, 0⟩)).map
          (fun c => Event.conv c.label))
  ∧ ((sampleDynamicType.convert (JValue.Byte 0) ⟨0, 0⟩ ⟨2, 0⟩).2.filter isConvEvent
      = (sampleDynamicType.structure_converters.filter (inRangeB ⟨0, 0⟩ ⟨2, 0⟩)).map
          (fun c => Event.conv c.label))
  ∧ ((sampleIdType.convert [] ⟨0, 0⟩ ⟨2, 0⟩).2.filter isConvEvent
      = (sampleIdType.structure_converters.filter (inRangeB ⟨0, 0⟩ ⟨2, 0⟩)).map
          (fun c => Event.conv c.label)) :=
  ⟨claim_C1_interval_correctness.1 sampleMapType [] ⟨0, 0⟩ ⟨2, 0⟩ (by decide),
   claim_C1_interval_correctness.2.1 sampleObjectType (JValue.Byte 0) ⟨0, 0⟩ ⟨2, 0⟩
     (by decide),
   claim_C1_interval_correctness.2.2.1 sampleDynamicType (JValue.Byte 0) ⟨0, 0⟩ ⟨2, 0⟩
     (by decide),
   claim_C1_interval_correctness.2.2.2 sampleIdType [] ⟨0, 0⟩ ⟨2, 0⟩ (by decide)⟩

/-! ## Claim C4: hook bucket selection around converters -/

/-- **C4.**  For every `DataType` variant, around every in-range converter
applied during `convert(doc, from, to)` the pre-hook bucket is the floor
bucket at `converter.to_version` and the post-hook bucket is the floor
bucket at the call's `to_version` (see `segTrace`/`segTraceId`: the pre
events come from `floorBucket hooks c.to_version`, the post events from
`floorBucket hooks to_version`); the remainder of the trace is the
trailing pass (absent for `ObjectDataType`). -/
theorem claim_C4_hook_bucket_selection :
    (∀ (dt : MapDataType) (d : JCompound) (f t : DataVersion),
      SortedConverters dt.structure_converters →
      (dt.convert d f t).2
        = ((dt.structure_converters.filter (inRangeB f t)).map
            (segTrace dt.structure_hooks f t)).flatten
          ++ (trailingPass dt.structure_hooks dt.structure_walkers
              (convertLoop dt.structure_hooks dt.structure_converters d f t).1
              f t).2)
  ∧ (∀ (dt : ObjectDataType) (d : JValue) (f t : DataVersion),
      SortedConverters dt.converters →
      (dt.convert d f t).2
        = ((dt.converters.filter (inRangeB f t)).map
            (segTrace dt.structure_hooks f t)).flatten)
  ∧ (∀ (dt : DynamicDataType) (d : JValue) (f t : DataVersion),
      SortedConverters dt.structure_converters →
      (dt.convert d f t).2
        = ((dt.structure_converters.filter (inRangeB f t)).map
            (segTrace dt.structure_hooks f t)).flatten
          ++ (trailingPass dt.structure_hooks dt.structure_walkers
              (convertLoop dt.structure_hooks dt.structure_converters d f t).1
              f t).2)
  ∧ (∀ (dt : IdDataType) (d : JCompound) (f t : DataVersion),
      SortedConverters dt.structure_converters →
      (dt.convert d f t).2
        = ((dt.structure_converters.filter (inRangeB f t)).map
            (segTraceId dt.structure_hooks f t)).flatten
          ++ preTraceOf ((floorBucket dt.structure_hooks t).getD []).reverse
          ++ walkTraceOf ((floorBucket dt.structure_walkers t).getD [])
          ++ (runIdWalkers dt.walkers_by_id (idStageDoc dt d f t) f t).2
          ++ postTraceOf ((floorBucket dt.structure_hooks t).getD []).reverse) := by
  refine ⟨?_, ?_, ?_, ?_⟩
  · intro dt d f t hs
    simp only [MapDataType.convert]
    rw [convertLoop_trace, appliedConverters_eq_filter _ _ _ hs]
  · intro dt d f t hs
    simp only [ObjectDataType.convert]
    rw [convertLoop_trace, appliedConverters_eq_filter _ _ _ hs]
  · intro dt d f t hs
    simp only [DynamicDataType.convert]
    rw [convertLoop_trace, appliedConverters_eq_filter _ _ _ hs]
  · intro dt d f t hs
    rw [IdDataType.convert_trace, convertLoopId_trace,
      appliedConverters_eq_filter _ _ _ hs]

/-- Witness for C4 on the four two-converter fixtures. -/
theorem claim_C4_hook_bucket_selection_witness :
    ((sampleMapType.convert [] ⟨0, 0⟩ ⟨2, 0⟩).2
      = ((sampleMapType.structure_converters.filter (inRangeB ⟨0, 0⟩ ⟨2, 0⟩)).map
          (segTrace sampleMapType.structure_hooks ⟨0, 0⟩ ⟨2, 0⟩)).flatten
        ++ (trailingPass sampleMapType.structure_hooks sampleMapType.structure_walkers
            (convertLoop sampleMapType.structure_hooks
              sampleMapType.structure_converters [] ⟨0, 0⟩ ⟨2, 0⟩).1
            ⟨0, 0⟩ ⟨2, 0⟩).2)
  ∧ ((sampleObjectType.convert (JValue.Byte 0) ⟨0, 0⟩ ⟨2, 0⟩).2
      = ((sampleObjectType.converters.filter (inRangeB ⟨0, 0⟩ ⟨2, 0⟩)).map
          (segTrace sampleObjectType.structure_hooks ⟨0, 0⟩ ⟨2, 0⟩)).flatten) :=
  ⟨claim_C4_hook_bucket_selection.1 sampleMapType [] ⟨0, 0⟩ ⟨2, 0⟩ (by decide),
   claim_C4_hook_bucket_selection.2.1 sampleObjectType (JValue.Byte 0) ⟨0, 0⟩ ⟨2, 0⟩
     (by decide)⟩

/-! ## Claim C6: `convert(doc, v, v)` (and any `from ≥ to`) -/

/-- **C6.**  For `MapDataType`, `DynamicDataType` and `IdDataType`, any
call with `from_version ≥ to_version` (in particular `convert(doc, v, v)`)
invokes zero converters, and executes exactly one trailing pass: the floor
hook bucket's pre-hooks, the floor walker bucket at `to_version`, and the
same hook bucket's post-hooks (for `IdDataType` the pass also contains its
id-dispatched walkers between the generic walkers and the post-hooks, and
runs both hook directions over the reversed bucket). -/
theorem claim_C6_noop_range :
    (∀ (dt : MapDataType) (d : JCompound) (f t : DataVersion), t ≤ f →
      dt.convert d f t = trailingPass dt.structure_hooks dt.structure_walkers d f t
      ∧ (dt.convert d f t).2.filter isConvEvent = []
      ∧ (dt.convert d f t).2
          = preTraceOf ((floorBucket dt.structure_hooks t).getD [])
            ++ walkTraceOf ((floorBucket dt.structure_walkers t).getD [])
            ++ postTraceOf ((floorBucket dt.structure_hooks t).getD []).reverse)
  ∧ (∀ (dt : DynamicDataType) (d : JValue) (f t : DataVersion), t ≤ f →
      dt.convert d f t = trailingPass dt.structure_hooks dt.structure_walkers d f t
      ∧ (dt.convert d f t).2.filter isConvEvent = []
      ∧ (dt.convert d f t).2
          = preTraceOf ((floorBucket dt.structure_hooks t).getD [])
            ++ walkTraceOf ((floorBucket dt.structure_walkers t).getD [])
            ++ postTraceOf ((floorBucket dt.structure_hooks t).getD []).reverse)
  ∧ (∀ (dt : IdDataType) (d : JCompound) (f t : DataVersion), t ≤ f →
      (dt.convert d f t).2.filter isConvEvent = []
      ∧ (dt.convert d f t).2
          = preTraceOf ((floorBucket dt.structure_hooks t).getD []).reverse
            ++ walkTraceOf ((floorBucket dt.structure_walkers t).getD [])
            ++ (runIdWalkers dt.walkers_by_id (idStageDoc dt d f t) f t).2
            ++ postTraceOf ((floorBucket dt.structure_hooks t).getD []).reverse) := by
  refine ⟨?_, ?_, ?_⟩
  · intro dt d f t h
    have hno := convertLoop_no_op dt.structure_hooks dt.structure_converters d f t h
    refine ⟨?_, ?_, ?_⟩
    · simp [MapDataType.convert, hno]
    · simp [MapDataType.convert, hno, trailingPass_filter_conv]
    · simp [MapDataType.convert, hno, trailingPass_trace]
  · intro dt d f t h
    have hno := convertLoop_no_op dt.structure_hooks dt.structure_converters d f t h
    refine ⟨?_, ?_, ?_⟩
    · simp [DynamicDataType.convert, hno]
    · simp [DynamicDataType.convert, hno, trailingPass_filter_conv]
    · simp [DynamicDataType.convert, hno, trailingPass_trace]
  · intro dt d f t h
    have hno := convertLoopId_no_op dt.structure_hooks dt.structure_converters d f t h
    constructor
    · rw [IdDataType.convert_trace]
      simp [hno, List.filter_append, preTraceOf_no_conv, walkTraceOf_no_conv,
        postTraceOf_no_conv, runIdWalkers_filter_conv]
    · rw [IdDataType.convert_trace]
      simp [hno]

/-- Witness for C6 at `from = to = ⟨1,0⟩` on the fixtures. -/
theorem claim_C6_noop_range_witness :
    (sampleMapType.convert [] ⟨1, 0⟩ ⟨1, 0⟩
        = trailingPass sampleMapType.structure_hooks sampleMapType.structure_walkers
            [] ⟨1, 0⟩ ⟨1, 0⟩
      ∧ (sampleMapType.convert [] ⟨1, 0⟩ ⟨1, 0⟩).2.filter isConvEvent = []
      ∧ (sampleMapType.convert [] ⟨1, 0⟩ ⟨1, 0⟩).2
          = preTraceOf ((floorBucket sampleMapType.structure_hooks ⟨1, 0⟩).getD [])
            ++ walkTraceOf ((floorBucket sampleMapType.structure_walkers ⟨1, 0⟩).getD [])
            ++ postTraceOf ((floorBucket sampleMapType.structure_hooks ⟨1, 0⟩).getD []).reverse)
  ∧ ((sampleIdType.convert [] ⟨1, 0⟩ ⟨1, 0⟩).2.filter isConvEvent = []
      ∧ (sampleIdType.convert [] ⟨1, 0⟩ ⟨1, 0⟩).2
          = preTraceOf ((floorBucket sampleIdType.structure_hooks ⟨1, 0⟩).getD []).reverse
            ++ walkTraceOf ((floorBucket sampleIdType.structure_walkers ⟨1, 0⟩).getD [])
            ++ (runIdWalkers sampleIdType.walkers_by_id
                (idStageDoc sampleIdType [] ⟨1, 0⟩ ⟨1, 0⟩) ⟨1, 0⟩ ⟨1, 0⟩).2
            ++ postTraceOf ((floorBucket sampleIdType.structure_hooks ⟨1, 0⟩).getD []).reverse) :=
  ⟨claim_C6_noop_range.1 sampleMapType [] ⟨1, 0⟩ ⟨1, 0⟩ (by decide),
   claim_C6_noop_range.2.2 sampleIdType [] ⟨1, 0⟩ ⟨1, 0⟩ (by decide)⟩

/-- Counterexample to **C2** as stated: on an `IdDataType` whose active
bucket is `[hook 1, hook 2]`, `convert(doc, 0, 0)` fires the pre-hooks in
*reverse* list order (`[pre 2, pre 1]`), not in list order as the claim
requires (which would give the trace `[pre 1, pre 2, post 2, post 1]`). -/
theorem claim_C2_hook_order_counterexample :
    (sampleIdHooksType.convert [] ⟨0, 0⟩ ⟨0, 0⟩).2
      = [Event.preHook 2, Event.preHook 1, Event.postHook 2, Event.postHook 1]
  ∧ (sampleIdHooksType.convert [] ⟨0, 0⟩ ⟨0, 0⟩).2
      ≠ [Event.preHook 1, Event.preHook 2, Event.postHook 2, Event.postHook 1] := by
  decide

/-- **C2 (amended).**  For `MapDataType`, `ObjectDataType` and
`DynamicDataType`, at every call site the pre-hooks of the selected bucket
fire in list order and the post-hooks of the selected bucket fire in
reverse list order.  For `IdDataType` the per-converter post-hooks fire in
*list* order, and the trailing pass runs both its pre-hooks and its
post-hooks over the *reversed* bucket.  Each call site runs one pre bucket
before and one post bucket after its converter/walker work, but around a
converter the pre bucket (floor at `converter.to_version`) and post bucket
(floor at `to_version`) need not coincide. -/
theorem claim_C2_hook_order :
    (∀ (dt : MapDataType) (d : JCompound) (f t : DataVersion),
      SortedConverters dt.structure_converters →
      (dt.convert d f t).2
        = ((dt.structure_converters.filter (inRangeB f t)).map (fun c =>
            ((floorBucket dt.structure_hooks c.to_version).getD []).map
                (fun h => Event.preHook h.label)
              ++ Event.conv c.label
                :: ((floorBucket dt.structure_hooks t).getD []).reverse.map
                    (fun h => Event.postHook h.label))).flatten
          ++ (((floorBucket dt.structure_hooks t).getD []).map
                (fun h => Event.preHook h.label)
              ++ ((floorBucket dt.structure_walkers t).getD []).map
                  (fun w => Event.walk w.label)
              ++ ((floorBucket dt.structure_hooks t).getD []).reverse.map
                  (fun h => Event.postHook h.label)))
  ∧ (∀ (dt : ObjectDataType) (d : JValue) (f t : DataVersion),
      SortedConverters dt.converters →
      (dt.convert d f t).2
        = ((dt.converters.filter (inRangeB f t)).map (fun c =>
            ((floorBucket dt.structure_hooks c.to_version).getD []).map
                (fun h => Event.preHook h.label)
              ++ Event.conv c.label
                :: ((floorBucket dt.structure_hooks t).getD []).reverse.map
                    (fun h => Event.postHook h.label))).flatten)
  ∧ (∀ (dt : DynamicDataType) (d : JValue) (f t : DataVersion),
      SortedConverters dt.structure_converters →
      (dt.convert d f t).2
        = ((dt.structure_converters.filter (inRangeB f t)).map (fun c =>
            ((floorBucket dt.structure_hooks c.to_version).getD []).map
                (fun h => Event.preHook h.label)
              ++ Event.conv c.label
                :: ((floorBucket dt.structure_hooks t).getD []).reverse.map
                    (fun h => Event.postHook h.label))).flatten
          ++ (((floorBucket dt.structure_hooks t).getD []).map
                (fun h => Event.preHook h.label)
              ++ ((floorBucket dt.structure_walkers t).getD []).map
                  (fun w => Event.walk w.label)
              ++ ((floorBucket dt.structure_hooks t).getD []).reverse.map
                  (fun h => Event.postHook h.label)))
  ∧ (∀ (dt : IdDataType) (d : JCompound) (f t : DataVersion),
      SortedConverters dt.structure_converters →
      (dt.convert d f t).2
        = ((dt.structure_converters.filter (inRangeB f t)).map (fun c =>
            ((floorBucket dt.structure_hooks c.to_version).getD []).map
                (fun h => Event.preHook h.label)
              ++ Event.conv c.label
                :: ((floorBucket dt.structure_hooks t).getD []).map
                    (fun h => Event.postHook h.label))).flatten
          ++ (((floorBucket dt.structure_hooks t).getD []).reverse.map
                (fun h => Event.preHook h.label)
              ++ ((floorBucket dt.structure_walkers t).getD []).map
                  (fun w => Event.walk w.label)
              ++ (runIdWalkers dt.walkers_by_id (idStageDoc dt d f t) f t).2
              ++ ((floorBucket dt.structure_hooks t).getD []).reverse.map
                  (fun h => Event.postHook h.label))) := by
  refine ⟨?_, ?_, ?_, ?_⟩
  · intro dt d f t hs
    simp only [MapDataType.convert]
    rw [convertLoop_trace, appliedConverters_eq_filter _ _ _ hs,
      trailingPass_trace]
    rfl
  · intro dt d f t hs
    simp only [ObjectDataType.convert]
    rw [convertLoop_trace, appliedConverters_eq_filter _ _ _ hs]
    rfl
  · intro dt d f t hs
    simp only [DynamicDataType.convert]
    rw [convertLoop_trace, appliedConverters_eq_filter _ _ _ hs,
      trailingPass_trace]
    rfl
  · intro dt d f t hs
    rw [IdDataType.convert_trace, convertLoopId_trace,
      appliedConverters_eq_filter _ _ _ hs]
    simp only [List.append_assoc]
    rfl

/-- Witness for the amended C2 on the hook fixtures. -/
theorem claim_C2_hook_order_witness :
    ((sampleMapHooksType.convert [] ⟨0, 0⟩ ⟨0, 0⟩).2
      = ((sampleMapHooksType.structure_converters.filter (inRangeB ⟨0, 0⟩ ⟨0, 0⟩)).map
          (fun c =>
            ((floorBucket sampleMapHooksType.structure_hooks c.to_version).getD []).map
                (fun h => Event.preHook h.label)
              ++ Event.conv c.label
                :: ((floorBucket sampleMapHooksType.structure_hooks ⟨0, 0⟩).getD []).reverse.map
                    (fun h => Event.postHook h.label))).flatten
        ++ (((floorBucket sampleMapHooksType.structure_hooks ⟨0, 0⟩).getD []).map
              (fun h => Event.preHook h.label)
            ++ ((floorBucket sampleMapHooksType.structure_walkers ⟨0, 0⟩).getD []).map
                (fun w => Event.walk w.label)
            ++ ((floorBucket sampleMapHooksType.structure_hooks ⟨0, 0⟩).getD []).reverse.map
                (fun h => Event.postHook h.label))) :=
  claim_C2_hook_order.1 sampleMapHooksType [] ⟨0, 0⟩ ⟨0, 0⟩ (by decide)

/-! ## Claim C3: order of equal-`to_version` registrations (corrected)

`add_structure_converter` inserts at the index `binary_search` returns.
When the list already holds a converter with the same `to_version`,
`binary_search` returns that converter's index (`Ok`), and `Vec::insert`
places the *new* converter before it — registration order is reversed,
not preserved. -/

/-- Counterexample to **C3** as stated: registering converter 1 then
converter 2 at the same version 1 on a fresh `MapDataType` yields the
vector `[2, 1]`, and `convert(doc, 0, 1)` applies converter 2 strictly
*before* converter 1. -/
theorem claim_C3_registration_order_counterexample :
    ((((MapDataType.new "m").add_structure_converter ⟨1, 0⟩ 1 idMapFunc
        ).add_structure_converter ⟨1, 0⟩ 2 idMapFunc).structure_converters.map
      (fun c => c.label) = [2, 1])
  ∧ (((((MapDataType.new "m").add_structure_converter ⟨1, 0⟩ 1 idMapFunc
        ).add_structure_converter ⟨1, 0⟩ 2 idMapFunc).convert [] ⟨0, 0⟩ ⟨1, 0⟩).2.filter
      isConvEvent = [Event.conv 2, Event.conv 1]) := by
  decide

/-- **C3 (amended).**  For every `DataType` variant: registering converter
C1 and then converter C2 with an equal `to_version` that is fresh (no
previously registered converter shares it) places C2 immediately *before*
C1 in the vector, so C2 is applied strictly before C1 during any `convert`
whose range includes that version. -/
theorem claim_C3_registration_order :
    (∀ (dt : MapDataType) (v : DataVersion) (l1 l2 : Nat)
      (func1 func2 : JCompound → DataVersion → DataVersion → JCompound)
      (d : JCompound) (f t : DataVersion),
      SortedConverters dt.structure_converters →
      (∀ x ∈ dt.structure_converters, x.to_version ≠ v) →
      f < v → v ≤ t →
      (((dt.add_structure_converter v l1 func1).add_structure_converter v l2
          func2).structure_converters
        = dt.structure_converters.take
            ((dt.structure_converters.map (fun x => x.to_version)).countP
              (fun k => decide (k ≤ v)))
          ++ ⟨v, l2, func2⟩ :: (⟨v, l1, func1⟩ : Converter JCompound)
            :: dt.structure_converters.drop
              ((dt.structure_converters.map (fun x => x.to_version)).countP
                (fun k => decide (k ≤ v))))
      ∧ ∃ A B, ((((dt.add_structure_converter v l1 func1).add_structure_converter
            v l2 func2).convert d f t).2.filter isConvEvent
          = A ++ Event.conv l2 :: Event.conv l1 :: B))
  ∧ (∀ (dt : ObjectDataType) (v : DataVersion) (l1 l2 : Nat)
      (func1 func2 : JValue → DataVersion → DataVersion → JValue)
      (d : JValue) (f t : DataVersion),
      SortedConverters dt.converters →
      (∀ x ∈ dt.converters, x.to_version ≠ v) →
      f < v → v ≤ t →
      (((dt.add_structure_converter v l1 func1).add_structure_converter v l2
          func2).converters
        = dt.converters.take
            ((dt.converters.map (fun x => x.to_version)).countP
              (fun k => decide (k ≤ v)))
          ++ ⟨v, l2, func2⟩ :: (⟨v, l1, func1⟩ : Converter JValue)
            :: dt.converters.drop
              ((dt.converters.map (fun x => x.to_version)).countP
                (fun k => decide (k ≤ v))))
      ∧ ∃ A B, ((((dt.add_structure_converter v l1 func1).add_structure_converter
            v l2 func2).convert d f t).2.filter isConvEvent
          = A ++ Event.conv l2 :: Event.conv l1 :: B))
  ∧ (∀ (dt : DynamicDataType) (v : DataVersion) (l1 l2 : Nat)
      (func1 func2 : JValue → DataVersion → DataVersion → JValue)
      (d : JValue) (f t : DataVersion),
      SortedConverters dt.structure_converters →
      (∀ x ∈ dt.structure_converters, x.to_version ≠ v) →
      f < v → v ≤ t →
      (((dt.add_structure_converter v l1 func1).add_structure_converter v l2
          func2).structure_converters
        = dt.structure_converters.take
            ((dt.structure_converters.map (fun x => x.to_version)).countP
              (fun k => decide (k ≤ v)))
          ++ ⟨v, l2, func2⟩ :: (⟨v, l1, func1⟩ : Converter JValue)
            :: dt.structure_converters.drop
              ((dt.structure_converters.map (fun x => x.to_version)).countP
                (fun k => decide (k ≤ v))))
      ∧ ∃ A B, ((((dt.add_structure_converter v l1 func1).add_structure_converter
            v l2 func2).convert d f t).2.filter isConvEvent
          = A ++ Event.conv l2 :: Event.conv l1 :: B))
  ∧ (∀ (dt : IdDataType) (v : DataVersion) (l1 l2 : Nat)
      (func1 func2 : JCompound → DataVersion → DataVersion → JCompound)
      (d : JCompound) (f t : DataVersion),
      SortedConverters dt.structure_converters →
      (∀ x ∈ dt.structure_converters, x.to_version ≠ v) →
      f < v → v ≤ t →
      (((dt.add_structure_converter v l1 func1).add_structure_converter v l2
          func2).structure_converters
        = dt.structure_converters.take
            ((dt.structure_converters.map (fun x => x.to_version)).countP
              (fun k => decide (k ≤ v)))
          ++ ⟨v, l2, func2⟩ :: (⟨v, l1, func1⟩ : Converter JCompound)
            :: dt.structure_converters.drop
              ((dt.structure_converters.map (fun x => x.to_version)).countP
                (fun k => decide (k ≤ v))))
      ∧ ∃ A B, ((((dt.add_structure_converter v l1 func1).add_structure_converter
            v l2 func2).convert d f t).2.filter isConvEvent
          = A ++ Event.conv l2 :: Event.conv l1 :: B)) := by
  refine ⟨?_, ?_, ?_, ?_⟩
  · intro dt v l1 l2 func1 func2 d f t hs hv hfv hvt
    have hlist := addConverterSorted_fresh_pair dt.structure_converters
      ⟨v, l1, func1⟩ ⟨v, l2, func2⟩ hs hv rfl
    refine ⟨hlist, ?_⟩
    have hsort2 : SortedConverters (((dt.add_structure_converter v l1
          func1).add_structure_converter v l2 func2).structure_converters) :=
      addConverterSorted_sorted _ _ (addConverterSorted_sorted _ _ hs)
    have htr : ((((dt.add_structure_converter v l1 func1).add_structure_converter
          v l2 func2).convert d f t).2.filter isConvEvent)
        = ((((dt.add_structure_converter v l1 func1).add_structure_converter
            v l2 func2).structure_converters.filter (inRangeB f t)).map
          (fun c => Event.conv c.label)) := by
      simp only [MapDataType.convert, List.filter_append]
      rw [convertLoop_trace, appliedConverters_eq_filter _ _ _ hsort2,
        segTraces_flatten_filter_conv, trailingPass_filter_conv,
        List.append_nil]
    rw [htr]
    have hconvs : ((dt.add_structure_converter v l1 func1).add_structure_converter
        v l2 func2).structure_converters
      = dt.structure_converters.take
          ((dt.structure_converters.map (fun x => x.to_version)).countP
            (fun k => decide (k ≤ v)))
        ++ ⟨v, l2, func2⟩ :: (⟨v, l1, func1⟩ : Converter JCompound)
          :: dt.structure_converters.drop
            ((dt.structure_converters.map (fun x => x.to_version)).countP
              (fun k => decide (k ≤ v))) := hlist
    rw [hconvs, List.filter_append,
      List.filter_cons_of_pos (by simp [inRangeB]; exact ⟨hfv, hvt⟩),
      List.filter_cons_of_pos (by simp [inRangeB]; exact ⟨hfv, hvt⟩),
      List.map_append, List.map_cons, List.map_cons]
    exact ⟨_, _, rfl⟩
  · intro dt v l1 l2 func1 func2 d f t hs hv hfv hvt
    have hlist := addConverterSorted_fresh_pair dt.converters
      ⟨v, l1, func1⟩ ⟨v, l2, func2⟩ hs hv rfl
    refine ⟨hlist, ?_⟩
    have hsort2 : SortedConverters (((dt.add_structure_converter v l1
          func1).add_structure_converter v l2 func2).converters) :=
      addConverterSorted_sorted _ _ (addConverterSorted_sorted _ _ hs)
    have htr : ((((dt.add_structure_converter v l1 func1).add_structure_converter
          v l2 func2).convert d f t).2.filter isConvEvent)
        = ((((dt.add_structure_converter v l1 func1).add_structure_converter
            v l2 func2).converters.filter (inRangeB f t)).map
          (fun c => Event.conv c.label)) := by
      simp only [ObjectDataType.convert]
      rw [convertLoop_trace, appliedConverters_eq_filter _ _ _ hsort2,
        segTraces_flatten_filter_conv]
    rw [htr, show ((dt.add_structure_converter v l1 func1).add_structure_converter
        v l2 func2).converters = _ from hlist, List.filter_append,
      List.filter_cons_of_pos (by simp [inRangeB]; exact ⟨hfv, hvt⟩),
      List.filter_cons_of_pos (by simp [inRangeB]; exact ⟨hfv, hvt⟩),
      List.map_append, List.map_cons, List.map_cons]
    exact ⟨_, _, rfl⟩
  · intro dt v l1 l2 func1 func2 d f t hs hv hfv hvt
    have hlist := addConverterSorted_fresh_pair dt.structure_converters
      ⟨v, l1, func1⟩ ⟨v, l2, func2⟩ hs hv rfl
    refine ⟨hlist, ?_⟩
    have hsort2 : SortedConverters (((dt.add_structure_converter v l1
          func1).add_structure_converter v l2 func2).structure_converters) :=
      addConverterSorted_sorted _ _ (addConverterSorted_sorted _ _ hs)
    have htr : ((((dt.add_structure_converter v l1 func1).add_structure_converter
          v l2 func2).convert d f t).2.filter isConvEvent)
        = ((((dt.add_structure_converter v l1 func1).add_structure_converter
            v l2 func2).structure_converters.filter (inRangeB f t)).map
          (fun c => Event.conv c.label)) := by
      simp only [DynamicDataType.convert, List.filter_append]
      rw [convertLoop_trace, appliedConverters_eq_filter _ _ _ hsort2,
        segTraces_flatten_filter_conv, trailingPass_filter_conv,
        List.append_nil]
    rw [htr, show ((dt.add_structure_converter v l1 func1).add_structure_converter
        v l2 func2).structure_converters = _ from hlist, List.filter_append,
      List.filter_cons_of_pos (by simp [inRangeB]; exact ⟨hfv, hvt⟩),
      List.filter_cons_of_pos (by simp [inRangeB]; exact ⟨hfv, hvt⟩),
      List.map_append, List.map_cons, List.map_cons]
    exact ⟨_, _, rfl⟩
  · intro dt v l1 l2 func1 func2 d f t hs hv hfv hvt
    have hlist := addConverterSorted_fresh_pair dt.structure_converters
      ⟨v, l1, func1⟩ ⟨v, l2, func2⟩ hs hv rfl
    refine ⟨hlist, ?_⟩
    have hsort2 : SortedConverters (((dt.add_structure_converter v l1
          func1).add_structure_converter v l2 func2).structure_converters) :=
      addConverterSorted_sorted _ _ (addConverterSorted_sorted _ _ hs)
    have htr : ((((dt.add_structure_converter v l1 func1).add_structure_converter
          v l2 func2).convert d f t).2.filter isConvEvent)
        = ((((dt.add_structure_converter v l1 func1).add_structure_converter
            v l2 func2).structure_converters.filter (inRangeB f t)).map
          (fun c => Event.conv c.label)) := by
      rw [IdDataType.convert_trace]
      simp only [List.filter_append]
      rw [convertLoopId_trace, appliedConverters_eq_filter _ _ _ hsort2,
        segTracesId_flatten_filter_conv, preTraceOf_no_conv,
        walkTraceOf_no_conv, runIdWalkers_filter_conv, postTraceOf_no_conv]
      simp
    rw [htr, show ((dt.add_structure_converter v l1 func1).add_structure_converter
        v l2 func2).structure_converters = _ from hlist, List.filter_append,
      List.filter_cons_of_pos (by simp [inRangeB]; exact ⟨hfv, hvt⟩),
      List.filter_cons_of_pos (by simp [inRangeB]; exact ⟨hfv, hvt⟩),
      List.map_append, List.map_cons, List.map_cons]
    exact ⟨_, _, rfl⟩

/-- Witness for the amended C3: the fresh `MapDataType` with two
registrations at version 1 (labels 1 then 2). -/
theorem claim_C3_registration_order_witness :
    ((((MapDataType.new "m").add_structure_converter ⟨1, 0⟩ 1 idMapFunc
        ).add_structure_converter ⟨1, 0⟩ 2 idMapFunc).structure_converters
      = (MapDataType.new "m").structure_converters.take
          (((MapDataType.new "m").structure_converters.map
            (fun x => x.to_version)).countP (fun k => decide (k ≤ ⟨1, 0⟩)))
        ++ ⟨⟨1, 0⟩, 2, idMapFunc⟩ :: (⟨⟨1, 0⟩, 1, idMapFunc⟩ : Converter JCompound)
          :: (MapDataType.new "m").structure_converters.drop
            (((MapDataType.new "m").structure_converters.map
              (fun x => x.to_version)).countP (fun k => decide (k ≤ ⟨1, 0⟩))))
  ∧ ∃ A B, (((((MapDataType.new "m").add_structure_converter ⟨1, 0⟩ 1 idMapFunc
        ).add_structure_converter ⟨1, 0⟩ 2 idMapFunc).convert [] ⟨0, 0⟩
        ⟨1, 0⟩).2.filter isConvEvent = A ++ Event.conv 2 :: Event.conv 1 :: B) :=
  claim_C3_registration_order.1 (MapDataType.new "m") ⟨1, 0⟩ 1 2 idMapFunc
    idMapFunc [] ⟨0, 0⟩ ⟨1, 0⟩ (by decide) (by decide) (by decide) (by decide)

/-! ## Helper lemmas about the id-walker registry -/

theorem floorBucket_mem {α : Type} (m : VersionMap α) (v : DataVersion)
    (b : List α) (h : floorBucket m v = some b) : ∃ k, (k, b) ∈ m := by
  induction m with
  | nil => simp [floorBucket] at h
  | cons e rest ih =>
    rcases e with ⟨k0, a⟩
    rw [floorBucket] at h
    by_cases hk : k0 ≤ v
    · rw [if_pos hk] at h
      rcases hfb : floorBucket rest v with _ | b'
      · rw [hfb] at h
        simp at h
        subst h
        exact ⟨k0, List.mem_cons_self _ _⟩
      · rw [hfb] at h
        simp at h
        subst h
        rcases ih hfb with ⟨k', hm⟩
        exact ⟨k', List.mem_cons_of_mem _ hm⟩
    · rw [if_neg hk] at h
      rcases ih h with ⟨k', hm⟩
      exact ⟨k', List.mem_cons_of_mem _ hm⟩

theorem WalkersById.get_mem (wbi : WalkersById) (i : String)
    (m : VersionMap (Walker JCompound)) (h : wbi.get i = some m) : (i, m) ∈ wbi := by
  induction wbi with
  | nil => simp [WalkersById.get] at h
  | cons e rest ih =>
    rw [WalkersById.get] at h
    by_cases hk : e.1 = i
    · rw [if_pos hk] at h
      have : e = (i, m) := by
        rcases e with ⟨k, mm⟩
        simp at h hk
        simp [hk, h]
      rw [this] at *
      exact List.mem_cons_self _ _
    · rw [if_neg hk] at h
      exact List.mem_cons_of_mem _ (ih h)

theorem WalkersById.get_entryPush (wbi : WalkersById) (id0 : String)
    (v : DataVersion) (w : Walker JCompound) (i : String) :
    (wbi.entryPush id0 v w).get i
      = if i = id0 then some (bucketPush ((wbi.get id0).getD []) v w)
        else wbi.get i := by
  induction wbi with
  | nil =>
    by_cases hi : i = id0
    · subst hi
      simp [WalkersById.entryPush, WalkersById.get]
    · have hi2 : ¬ id0 = i := fun h => hi h.symm
      simp [WalkersById.entryPush, WalkersById.get, hi, hi2]
  | cons e rest ih =>
    rcases e with ⟨k, m⟩
    by_cases hk : k = id0
    · subst hk
      rw [show WalkersById.entryPush ((k, m) :: rest) k v w
          = (k, bucketPush m v w) :: rest from by
        simp [WalkersById.entryPush]]
      by_cases hi : i = k
      · subst hi
        simp [WalkersById.get]
      · have hk2 : ¬ k = i := fun h => hi h.symm
        simp [WalkersById.get, hk2, hi]
    · rw [show WalkersById.entryPush ((k, m) :: rest) id0 v w
          = (k, m) :: WalkersById.entryPush rest id0 v w from by
        simp [WalkersById.entryPush, hk]]
      by_cases hi : i = k
      · subst hi
        simp [WalkersById.get, hk]
      · have hk3 : ¬ k = i := fun h => hi h.symm
        simp [WalkersById.get, hk3, hk, ih]

theorem mem_bucketPush {α : Type} (m : VersionMap α) (v : DataVersion) (x : α)
    (k : DataVersion) (b : List α) (h : (k, b) ∈ bucketPush m v x) :
    (k, b) ∈ m ∨ (k = v ∧ (b = [x] ∨ ∃ b0, (v, b0) ∈ m ∧ b = b0 ++ [x])) := by
  induction m with
  | nil =>
    simp [bucketPush] at h
    exact Or.inr ⟨h.1, Or.inl h.2⟩
  | cons e rest ih =>
    rcases e with ⟨k', xs⟩
    rw [bucketPush] at h
    by_cases h1 : v < k'
    · rw [if_pos h1] at h
      rcases List.mem_cons.mp h with he | h
      · simp at he
        exact Or.inr ⟨he.1, Or.inl he.2⟩
      · exact Or.inl h
    · rw [if_neg h1] at h
      by_cases h2 : v = k'
      · rw [if_pos h2] at h
        rcases List.mem_cons.mp h with he | h
        · simp at he
          exact Or.inr ⟨by rw [he.1, h2], Or.inr ⟨xs, by simp [h2], he.2⟩⟩
        · exact Or.inl (List.mem_cons_of_mem _ h)
      · rw [if_neg h2] at h
        rcases List.mem_cons.mp h with he | h
        · exact Or.inl (by simp [he])
        · rcases ih h with h | ⟨hk, hb⟩
          · exact Or.inl (List.mem_cons_of_mem _ h)
          · refine Or.inr ⟨hk, ?_⟩
            rcases hb with hb | ⟨b0, hb0, hb⟩
            · exact Or.inl hb
            · exact Or.inr ⟨b0, List.mem_cons_of_mem _ hb0, hb⟩

theorem walk_not_mem_preTraceOf {δ : Type} (hs : List (Hook δ)) (L : Nat) :
    Event.walk L ∉ preTraceOf hs := by
  simp [preTraceOf]

theorem walk_not_mem_postTraceOf {δ : Type} (hs : List (Hook δ)) (L : Nat) :
    Event.walk L ∉ postTraceOf hs := by
  simp [postTraceOf]

theorem walk_not_mem_loopId_trace {δ : Type} (hooks : VersionMap (Hook δ))
    (cs : List (Converter δ)) (d : δ) (f t : DataVersion) (L : Nat) :
    Event.walk L ∉ (convertLoopId hooks cs d f t).2 := by
  rw [convertLoopId_trace]
  simp [List.mem_flatten, segTraceId, preTraceOf, postTraceOf]

theorem mem_walkTraceOf {δ : Type} (ws : List (Walker δ)) (L : Nat) :
    Event.walk L ∈ walkTraceOf ws ↔ ∃ u ∈ ws, u.label = L := by
  simp [walkTraceOf]

/-! ## Claim C5: id-dispatched walkers -/

/-- **C5.**  In an `IdDataType`, a walker `w` registered via
`add_walker_for_id(v, id0, w)` runs during `convert(doc, from, to)` iff
the `"id"` field of the document — read at the id-walker stage, i.e. after
the converters, trailing pre-hooks and generic walkers have mutated it,
exactly as `src/convert.rs:744` reads it — is the string `id0` *and* the
floor lookup of `to` in `id0`'s bucket map selects a bucket containing
`w`.  When the `"id"` field is absent or not a string the stage is
silently skipped (document unchanged, no events, no error), and the
id-specific walkers run after the generic walker bucket and before the
trailing post-hooks.  The hypotheses state that `w`'s label is fresh:
no previously registered generic or id-dispatched walker shares it. -/
theorem claim_C5_id_walker_dispatch :
    ∀ (dt : IdDataType) (v : DataVersion) (id0 : String) (w : Walker JCompound)
      (d : JCompound) (f t : DataVersion),
      (∀ p ∈ dt.walkers_by_id, ∀ q ∈ p.2, ∀ u ∈ q.2, u.label ≠ w.label) →
      (∀ q ∈ dt.structure_walkers, ∀ u ∈ q.2, u.label ≠ w.label) →
      (((dt.add_walker_for_id v id0 w).convert d f t).2
        = (convertLoopId (dt.add_walker_for_id v id0 w).structure_hooks
            (dt.add_walker_for_id v id0 w).structure_converters d f t).2
          ++ preTraceOf ((floorBucket
              (dt.add_walker_for_id v id0 w).structure_hooks t).getD []).reverse
          ++ walkTraceOf ((floorBucket
              (dt.add_walker_for_id v id0 w).structure_walkers t).getD [])
          ++ (runIdWalkers (dt.add_walker_for_id v id0 w).walkers_by_id
              (idStageDoc (dt.add_walker_for_id v id0 w) d f t) f t).2
          ++ postTraceOf ((floorBucket
              (dt.add_walker_for_id v id0 w).structure_hooks t).getD []).reverse)
      ∧ ((∀ s, JCompound.get (idStageDoc (dt.add_walker_for_id v id0 w) d f t) "id"
            ≠ some (JValue.String s)) →
          runIdWalkers (dt.add_walker_for_id v id0 w).walkers_by_id
            (idStageDoc (dt.add_walker_for_id v id0 w) d f t) f t
          = (idStageDoc (dt.add_walker_for_id v id0 w) d f t, []))
      ∧ ((Event.walk w.label ∈ ((dt.add_walker_for_id v id0 w).convert d f t).2)
          ↔ (JCompound.get (idStageDoc (dt.add_walker_for_id v id0 w) d f t) "id"
              = some (JValue.String id0)
            ∧ ∃ ws, floorBucket
                (((dt.add_walker_for_id v id0 w).walkers_by_id.get id0).getD []) t
                = some ws
              ∧ w ∈ ws)) := by
  intro dt v id0 w d f t hfresh hfreshW
  refine ⟨IdDataType.convert_trace _ d f t, ?_, ?_⟩
  · intro hnostring
    rcases hget : JCompound.get (idStageDoc (dt.add_walker_for_id v id0 w) d f t)
        "id" with _ | val
    · simp [runIdWalkers, hget]
    · cases val <;> first
        | exact absurd hget (hnostring _)
        | simp [runIdWalkers, hget]
  · constructor
    · intro hmem
      rw [IdDataType.convert_trace] at hmem
      rcases List.mem_append.mp hmem with hmem | hE
      · rcases List.mem_append.mp hmem with hmem | hD
        · rcases List.mem_append.mp hmem with hmem | hC
          · rcases List.mem_append.mp hmem with hA | hB
            · exact absurd hA (walk_not_mem_loopId_trace _ _ _ _ _ _)
            · exact absurd hB (walk_not_mem_preTraceOf _ _)
          · rcases hfbw : floorBucket
                (dt.add_walker_for_id v id0 w).structure_walkers t with _ | b
            · rw [hfbw] at hC
              simp [walkTraceOf] at hC
            · rw [hfbw] at hC
              rcases (mem_walkTraceOf _ _).mp hC with ⟨u, hu, hul⟩
              rcases floorBucket_mem _ _ _ hfbw with ⟨k, hkb⟩
              exact absurd hul (hfreshW (k, b) hkb u hu)
        · rcases hget : JCompound.get
              (idStageDoc (dt.add_walker_for_id v id0 w) d f t) "id" with _ | val
          · rw [runIdWalkers, hget] at hD
            simp at hD
          · cases val with
            | String s =>
              simp only [runIdWalkers, hget] at hD
              rcases hw : WalkersById.get
                  (dt.add_walker_for_id v id0 w).walkers_by_id s with _ | m
              · rw [hw] at hD
                simp at hD
              · simp only [hw] at hD
                rcases hfb : floorBucket m t with _ | ws
                · rw [hfb] at hD
                  simp at hD
                · simp only [hfb] at hD
                  rw [runWalk_trace] at hD
                  rcases (mem_walkTraceOf _ _).mp hD with ⟨u, hu, hul⟩
                  by_cases hs : s = id0
                  · subst hs
                    have hw' : WalkersById.get
                        (dt.add_walker_for_id v s w).walkers_by_id s
                          = some (bucketPush ((dt.walkers_by_id.get s).getD [])
                            v w) := by
                      rw [show (dt.add_walker_for_id v s w).walkers_by_id
                          = dt.walkers_by_id.entryPush s v w from rfl,
                        WalkersById.get_entryPush]
                      simp
                    rw [hw'] at hw
                    have hm : m = bucketPush ((dt.walkers_by_id.get s).getD [])
                        v w := by
                      injection hw.symm
                    subst hm
                    rcases floorBucket_mem _ _ _ hfb with ⟨k, hkb⟩
                    rcases mem_bucketPush _ _ _ _ _ hkb with hold | ⟨_, hws⟩
                    · rcases hgo : dt.walkers_by_id.get s with _ | m0
                      · rw [hgo] at hold
                        simp at hold
                      · rw [hgo] at hold
                        simp at hold
                        exact absurd hul
                          (hfresh (s, m0) (WalkersById.get_mem _ _ _ hgo)
                            (k, ws) hold u hu)
                    · refine ⟨rfl, ws, ?_, ?_⟩
                      · rw [hw']
                        simpa using hfb
                      · rcases hws with hws | ⟨b0, hb0, hws⟩
                        · subst hws
                          simp at hu
                          subst hu
                          exact List.mem_singleton.mpr rfl
                        · subst hws
                          rcases List.mem_append.mp hu with hu | hu
                          · rcases hgo : dt.walkers_by_id.get s with _ | m0
                            · rw [hgo] at hb0
                              simp at hb0
                            · rw [hgo] at hb0
                              simp at hb0
                              exact absurd hul
                                (hfresh (s, m0) (WalkersById.get_mem _ _ _ hgo)
                                  (v, b0) hb0 u hu)
                          · simp at hu
                            subst hu
                            exact List.mem_append_right _ (List.mem_singleton.mpr rfl)
                  · have hw' : WalkersById.get
                        (dt.add_walker_for_id v id0 w).walkers_by_id s
                          = dt.walkers_by_id.get s := by
                      rw [show (dt.add_walker_for_id v id0 w).walkers_by_id
                          = dt.walkers_by_id.entryPush id0 v w from rfl,
                        WalkersById.get_entryPush, if_neg hs]
                    rw [hw'] at hw
                    rcases floorBucket_mem _ _ _ hfb with ⟨k, hkb⟩
                    exact absurd hul
                      (hfresh (s, m) (WalkersById.get_mem _ _ _ hw) (k, ws) hkb
                        u hu)
            | Byte n => rw [runIdWalkers, hget] at hD; simp at hD
            | Short n => rw [runIdWalkers, hget] at hD; simp at hD
            | Int n => rw [runIdWalkers, hget] at hD; simp at hD
            | Long n => rw [runIdWalkers, hget] at hD; simp at hD
            | Float n => rw [runIdWalkers, hget] at hD; simp at hD
            | Double n => rw [runIdWalkers, hget] at hD; simp at hD
            | ByteArray n => rw [runIdWalkers, hget] at hD; simp at hD
            | List n => rw [runIdWalkers, hget] at hD; simp at hD
            | Compound n => rw [runIdWalkers, hget] at hD; simp at hD
            | IntArray n => rw [runIdWalkers, hget] at hD; simp at hD
            | LongArray n => rw [runIdWalkers, hget] at hD; simp at hD
      · exact absurd hE (walk_not_mem_postTraceOf _ _)
    · rintro ⟨hid, ws, hfb, hwm⟩
      rw [IdDataType.convert_trace]
      have hw' : WalkersById.get (dt.add_walker_for_id v id0 w).walkers_by_id id0
          = some (bucketPush ((dt.walkers_by_id.get id0).getD []) v w) := by
        rw [show (dt.add_walker_for_id v id0 w).walkers_by_id
            = dt.walkers_by_id.entryPush id0 v w from rfl,
          WalkersById.get_entryPush]
        simp
      have hfb' : floorBucket (bucketPush ((dt.walkers_by_id.get id0).getD [])
          v w) t = some ws := by
        rw [hw'] at hfb
        simpa using hfb
      have hD : Event.walk w.label
          ∈ (runIdWalkers (dt.add_walker_for_id v id0 w).walkers_by_id
            (idStageDoc (dt.add_walker_for_id v id0 w) d f t) f t).2 := by
        simp only [runIdWalkers, hid, hw', hfb', runWalk_trace]
        exact (mem_walkTraceOf _ _).mpr ⟨w, hwm, rfl⟩
      simp only [List.mem_append]
      exact Or.inl (Or.inr hD)

/-- Witness for C5: a fresh `IdDataType` with one walker (label 7)
registered for id `"foo"` at version 1, converting `{"id": "foo"}`. -/
theorem claim_C5_id_walker_dispatch_witness :
    (Event.walk 7 ∈ (((IdDataType.new "i").add_walker_for_id ⟨1, 0⟩ "foo"
        ⟨7, idMapFunc⟩).convert [("id", JValue.String "foo")] ⟨0, 0⟩ ⟨1, 0⟩).2)
  ↔ (JCompound.get (idStageDoc ((IdDataType.new "i").add_walker_for_id ⟨1, 0⟩
        "foo" ⟨7, idMapFunc⟩) [("id", JValue.String "foo")] ⟨0, 0⟩ ⟨1, 0⟩) "id"
      = some (JValue.String "foo")
    ∧ ∃ ws, floorBucket ((((IdDataType.new "i").add_walker_for_id ⟨1, 0⟩ "foo"
          ⟨7, idMapFunc⟩).walkers_by_id.get "foo").getD []) ⟨1, 0⟩ = some ws
        ∧ (⟨7, idMapFunc⟩ : Walker JCompound) ∈ ws) :=
  (claim_C5_id_walker_dispatch (IdDataType.new "i") ⟨1, 0⟩ "foo" ⟨7, idMapFunc⟩
    [("id", JValue.String "foo")] ⟨0, 0⟩ ⟨1, 0⟩
    (fun p hp => absurd hp (List.not_mem_nil p))
    (fun q hq => absurd hq (List.not_mem_nil q))).2.2

/-! ## Helper lemmas about `bucketPush` / `bucketGet` -/

theorem bucketGet_eq_none {α : Type} (m : VersionMap α) (v : DataVersion)
    (h : ∀ p ∈ m, p.1 ≠ v) : bucketGet m v = none := by
  induction m with
  | nil => rfl
  | cons e rest ih =>
    rw [bucketGet, if_neg (h e (List.mem_cons_self _ _))]
    exact ih (fun p hp => h p (List.mem_cons_of_mem _ hp))

theorem bucketPush_keys_sorted {α : Type} (m : VersionMap α) (v : DataVersion)
    (x : α) (hs : KeysSorted m) : KeysSorted (bucketPush m v x) := by
  induction m with
  | nil =>
    rw [KeysSorted]
    simp [bucketPush]
  | cons e rest ih =>
    rcases e with ⟨k, xs⟩
    rw [KeysSorted, List.pairwise_cons] at hs
    rw [bucketPush]
    by_cases h1 : v < k
    · rw [if_pos h1, KeysSorted, List.pairwise_cons]
      constructor
      · intro b hb
        rcases List.mem_cons.mp hb with rfl | hb
        · exact h1
        · exact lt_trans h1 (hs.1 b hb)
      · rw [List.pairwise_cons]
        exact ⟨hs.1, hs.2⟩
    · rw [if_neg h1]
      by_cases h2 : v = k
      · rw [if_pos h2, KeysSorted, List.pairwise_cons]
        exact ⟨hs.1, hs.2⟩
      · rw [if_neg h2, KeysSorted, List.pairwise_cons]
        have hkv : k < v := by
          rcases lt_trichotomy v k with h | h | h
          · exact absurd h h1
          · exact absurd h h2
          · exact h
        constructor
        · intro b hb
          rcases b with ⟨kb, bb⟩
          rcases mem_bucketPush rest v x kb bb hb with hmem | ⟨rfl, _⟩
          · exact hs.1 _ hmem
          · exact hkv
        · exact ih hs.2

theorem bucketGet_bucketPush_self {α : Type} (m : VersionMap α)
    (v : DataVersion) (x : α) (hs : KeysSorted m) :
    bucketGet (bucketPush m v x) v
      = some ((bucketGet m v).getD [] ++ [x]) := by
  induction m with
  | nil => simp [bucketPush, bucketGet]
  | cons e rest ih =>
    rcases e with ⟨k, xs⟩
    rw [KeysSorted, List.pairwise_cons] at hs
    rw [bucketPush]
    by_cases h1 : v < k
    · rw [if_pos h1, bucketGet, if_pos rfl]
      have hk : ¬ k = v := fun he => absurd (he ▸ h1) (lt_irrefl _)
      rw [bucketGet, if_neg hk]
      rw [bucketGet_eq_none rest v
        (fun p hp => fun he => absurd (he ▸ (hs.1 p hp)) (by
          intro hlt
          exact absurd (lt_trans h1 hlt) (lt_irrefl _)))]
      rfl
    · rw [if_neg h1]
      by_cases h2 : v = k
      · rw [if_pos h2, bucketGet, if_pos h2.symm, bucketGet, if_pos h2.symm]
        rfl
      · rw [if_neg h2, bucketGet, if_neg (fun he => h2 he.symm), bucketGet,
          if_neg (fun he => h2 he.symm)]
        exact ih hs.2

theorem bucketGet_foldl_bucketPush {α : Type} (ws : List α) (m : VersionMap α)
    (v : DataVersion) (hs : KeysSorted m) (hne : ws ≠ []) :
    bucketGet (ws.foldl (fun b w => bucketPush b v w) m) v
      = some ((bucketGet m v).getD [] ++ ws) := by
  induction ws generalizing m with
  | nil => exact absurd rfl hne
  | cons w ws' ih =>
    rcases ws' with _ | ⟨w2, ws''⟩
    · simp only [List.foldl_cons, List.foldl_nil]
      exact bucketGet_bucketPush_self m v w hs
    · rw [List.foldl_cons,
        ih (bucketPush m v w) (bucketPush_keys_sorted m v w hs) (by simp),
        bucketGet_bucketPush_self m v w hs]
      simp

theorem get_foldl_entryPush_ne (ws : List (Walker JCompound)) (wbi : WalkersById)
    (to_id : String) (version : DataVersion) (i : String) (hi : ¬ i = to_id) :
    (ws.foldl (fun acc w => WalkersById.entryPush acc to_id version w) wbi).get i
      = wbi.get i := by
  induction ws generalizing wbi with
  | nil => rfl
  | cons w ws' ih =>
    rw [List.foldl_cons, ih, WalkersById.get_entryPush, if_neg hi]

theorem get_foldl_entryPush_self (ws : List (Walker JCompound))
    (wbi : WalkersById) (to_id : String) (version : DataVersion)
    (hne : ws ≠ []) :
    (ws.foldl (fun acc w => WalkersById.entryPush acc to_id version w) wbi).get
        to_id
      = some (ws.foldl (fun b w => bucketPush b version w)
          ((wbi.get to_id).getD [])) := by
  induction ws generalizing wbi with
  | nil => exact absurd rfl hne
  | cons w ws' ih =>
    rcases ws' with _ | ⟨w2, ws''⟩
    · simp only [List.foldl_cons, List.foldl_nil]
      rw [WalkersById.get_entryPush]
      simp
    · rw [List.foldl_cons, ih _ (by simp), WalkersById.get_entryPush]
      simp

/-! ## Claim C7: `copy_walkers` (corrected)

The registry-manipulation part of the claim holds, but its final sentence
— *any* document with id `to_id` converted at `to_version ≥ version`
triggers the copied walker — fails when `to_id` already owns a bucket
with a key in `(version, to_version]`: the floor lookup then selects that
later bucket and the copied one never runs. -/

/-- Counterexample to **C7** as stated: `"foo"` has walker 10 at version 1,
`"bar"` has walker 20 at version 2; after `copy_walkers(1, "foo", "bar")`,
converting `{"id": "bar"}` with `to_version = 2 ≥ 1` runs only walker 20 —
the copied walker 10 is *not* triggered. -/
theorem claim_C7_copy_walkers_counterexample :
    ((⟨1, 0⟩ : DataVersion) ≤ ⟨2, 0⟩)
  ∧ Event.walk 10
      ∉ (sampleCopyDt.convert [("id", JValue.String "bar")] ⟨0, 0⟩ ⟨2, 0⟩).2
  ∧ Event.walk 20
      ∈ (sampleCopyDt.convert [("id", JValue.String "bar")] ⟨0, 0⟩ ⟨2, 0⟩).2 := by
  decide

/-- **C7 (amended).**  `copy_walkers(version, from_id, to_id)` floor-looks
up `from_id`'s bucket at `version` and appends each of its entries — the
same `Walker` values, i.e. the shared `Rc` handles, not clones — to
`to_id`'s bucket keyed exactly at `version` (other ids are untouched); it
is a no-op when `from_id` has no bucket at or below `version`.
Afterwards, a document whose id at the id-walker stage equals `to_id`,
converted with `to_version ≥ version`, triggers every copied walker
*provided* the floor lookup of `to_version` in `to_id`'s updated bucket
map selects the bucket keyed at `version` (in particular whenever `to_id`
has no bucket with key in `(version, to_version]`). -/
theorem claim_C7_copy_walkers :
    ∀ (dt : IdDataType) (version : DataVersion) (from_id to_id : String),
      (dt.walkers_by_id.get from_id = none →
        dt.copy_walkers version from_id to_id = dt)
      ∧ (∀ fv, dt.walkers_by_id.get from_id = some fv →
          floorBucket fv version = none →
          dt.copy_walkers version from_id to_id = dt)
      ∧ (∀ fv ws, dt.walkers_by_id.get from_id = some fv →
          floorBucket fv version = some ws → ws ≠ [] →
          (∀ p ∈ dt.walkers_by_id, KeysSorted p.2) →
          bucketGet (((dt.copy_walkers version from_id to_id).walkers_by_id.get
              to_id).getD []) version
            = some ((bucketGet ((dt.walkers_by_id.get to_id).getD [])
                version).getD [] ++ ws)
          ∧ ∀ i, ¬ i = to_id →
              (dt.copy_walkers version from_id to_id).walkers_by_id.get i
                = dt.walkers_by_id.get i)
      ∧ (∀ fv ws (d : JCompound) (f t_ : DataVersion),
          dt.walkers_by_id.get from_id = some fv →
          floorBucket fv version = some ws →
          (∀ p ∈ dt.walkers_by_id, KeysSorted p.2) →
          version ≤ t_ →
          JCompound.get (idStageDoc (dt.copy_walkers version from_id to_id) d f
              t_) "id" = some (JValue.String to_id) →
          floorBucket (((dt.copy_walkers version from_id to_id).walkers_by_id.get
              to_id).getD []) t_
            = bucketGet (((dt.copy_walkers version from_id to_id).walkers_by_id.get
                to_id).getD []) version →
          ∀ u ∈ ws, Event.walk u.label
            ∈ ((dt.copy_walkers version from_id to_id).convert d f t_).2) := by
  intro dt version from_id to_id
  refine ⟨?_, ?_, ?_, ?_⟩
  · intro h
    simp [IdDataType.copy_walkers, h]
  · intro fv h hfb
    simp [IdDataType.copy_walkers, h, hfb]
  · intro fv ws hget hfb hne hsorted
    have hcw : (dt.copy_walkers version from_id to_id).walkers_by_id
        = ws.foldl (fun acc w => WalkersById.entryPush acc to_id version w)
            dt.walkers_by_id := by
      simp [IdDataType.copy_walkers, hget, hfb]
    have hsold : KeysSorted ((dt.walkers_by_id.get to_id).getD []) := by
      rcases hgo : dt.walkers_by_id.get to_id with _ | m0
      · rw [KeysSorted]
        simp
      · simpa using hsorted (to_id, m0) (WalkersById.get_mem _ _ _ hgo)
    constructor
    · rw [hcw, get_foldl_entryPush_self _ _ _ _ hne]
      simp only [Option.getD_some]
      exact bucketGet_foldl_bucketPush _ _ _ hsold hne
    · intro i hi
      rw [hcw, get_foldl_entryPush_ne _ _ _ _ _ hi]
  · intro fv ws d f t_ hget hfb hsorted hvt hid hfloor u hu
    have hne : ws ≠ [] := by
      intro h
      rw [h] at hu
      cases hu
    have hcw : (dt.copy_walkers version from_id to_id).walkers_by_id
        = ws.foldl (fun acc w => WalkersById.entryPush acc to_id version w)
            dt.walkers_by_id := by
      simp [IdDataType.copy_walkers, hget, hfb]
    have hsold : KeysSorted ((dt.walkers_by_id.get to_id).getD []) := by
      rcases hgo : dt.walkers_by_id.get to_id with _ | m0
      · rw [KeysSorted]
        simp
      · simpa using hsorted (to_id, m0) (WalkersById.get_mem _ _ _ hgo)
    have hgett : (dt.copy_walkers version from_id to_id).walkers_by_id.get to_id
        = some (ws.foldl (fun b w => bucketPush b version w)
            ((dt.walkers_by_id.get to_id).getD [])) := by
      rw [hcw]
      exact get_foldl_entryPush_self _ _ _ _ hne
    have hbg : bucketGet (((dt.copy_walkers version from_id
        to_id).walkers_by_id.get to_id).getD []) version
        = some ((bucketGet ((dt.walkers_by_id.get to_id).getD [])
            version).getD [] ++ ws) := by
      rw [hgett]
      simp only [Option.getD_some]
      exact bucketGet_foldl_bucketPush _ _ _ hsold hne
    have hfM : floorBucket ((ws.foldl (fun b w => bucketPush b version w)
        ((dt.walkers_by_id.get to_id).getD []))) t_
        = some ((bucketGet ((dt.walkers_by_id.get to_id).getD [])
            version).getD [] ++ ws) := by
      have := hfloor.trans hbg
      rw [hgett] at this
      simpa using this
    rw [IdDataType.convert_trace]
    simp only [List.mem_append]
    refine Or.inl (Or.inr ?_)
    simp only [runIdWalkers, hid, hgett, hfM, runWalk_trace]
    exact (mem_walkTraceOf _ _).mpr ⟨u, List.mem_append_right _ hu, rfl⟩

/-- Witness for the amended C7: after copying `"foo"`'s version-1 walker
(label 7) to an id `"bar"` that owns no walkers, a `{"id": "bar"}`
document converted `0 → 1` runs the copied walker. -/
theorem claim_C7_copy_walkers_witness :
    Event.walk 7
      ∈ ((((IdDataType.new "c2").add_walker_for_id ⟨1, 0⟩ "foo"
          ⟨7, idMapFunc⟩).copy_walkers ⟨1, 0⟩ "foo" "bar").convert
        [("id", JValue.String "bar")] ⟨0, 0⟩ ⟨1, 0⟩).2 :=
  (claim_C7_copy_walkers ((IdDataType.new "c2").add_walker_for_id ⟨1, 0⟩ "foo"
      ⟨7, idMapFunc⟩) ⟨1, 0⟩ "foo" "bar").2.2.2
    [(⟨1, 0⟩, [⟨7, idMapFunc⟩])] [⟨7, idMapFunc⟩]
    [("id", JValue.String "bar")] ⟨0, 0⟩ ⟨1, 0⟩
    rfl rfl
    (by
      intro p hp
      rcases List.mem_cons.mp hp with rfl | hp
      · rw [KeysSorted]
        simp [bucketPush]
      · cases hp)
    (le_refl _) rfl rfl
    ⟨7, idMapFunc⟩ (List.mem_singleton.mpr rfl)

/-! ## C9: `get_mut_multi` -/

/-- The double-loop duplicate scan succeeds (finds no duplicate) exactly
when the requested keys are pairwise distinct. -/
theorem hasNonUniqueKeys_eq_false_iff (keys : List String) :
    hasNonUniqueKeys keys = false ↔ keys.Nodup := by
  induction keys with
  | nil => simp [hasNonUniqueKeys]
  | cons k rest ih =>
    simp [hasNonUniqueKeys, List.nodup_cons, ih]

/-- A key has a value in a compound exactly when it is among the
compound's keys. -/
theorem JCompound.isSome_get_iff (m : JCompound) (k : String) :
    (JCompound.get m k).isSome ↔ k ∈ m.keysOf := by
  induction m with
  | nil => simp [JCompound.get, JCompound.keysOf]
  | cons p rest ih =>
    obtain ⟨k0, v0⟩ := p
    by_cases h : k0 = k
    · subst h
      simp [JCompound.get, JCompound.keysOf]
    · simp only [JCompound.get, if_neg h, JCompound.keysOf, List.map_cons,
        List.mem_cons]
      rw [ih]
      constructor
      · exact fun hm => Or.inr hm
      · rintro (rfl | hm)
        · exact absurd rfl h
        · exact hm

/-- **C9.** `get_mut_multi(map, keys)` panics (modelled as `none`) if and
only if two of the requested key names are equal; with pairwise-distinct
keys it returns one optional accessor per key, in order, which is `some`
exactly when that key is present in the map and `none` when it is
absent. -/
theorem claim_C9_get_mut_multi (map : JCompound) (keys : List String) :
    (get_mut_multi map keys = none ↔ ¬ keys.Nodup)
    ∧ (keys.Nodup →
        get_mut_multi map keys
          = some (keys.map (fun key => JCompound.get map key)))
    ∧ ∀ k : String, (JCompound.get map k).isSome ↔ k ∈ map.keysOf := by
  refine ⟨?_, ?_, fun k => JCompound.isSome_get_iff map k⟩
  · rw [get_mut_multi]
    by_cases h : keys.Nodup
    · rw [if_neg]
      · simp [h]
      · rw [(hasNonUniqueKeys_eq_false_iff keys).mpr h]
        simp
    · rw [if_pos]
      · simp [h]
      · by_contra hfalse
        exact h ((hasNonUniqueKeys_eq_false_iff keys).mp
          (Bool.not_eq_true _ ▸ hfalse))
  · intro h
    rw [get_mut_multi, if_neg]
    rw [(hasNonUniqueKeys_eq_false_iff keys).mpr h]
    simp

/-- Witness for C9 at concrete inputs: duplicate keys panic, distinct keys
give a present accessor and an absent one. -/
theorem claim_C9_get_mut_multi_witness :
    get_mut_multi [("a", JValue.Byte 1)] ["a", "a"] = none
    ∧ get_mut_multi [("a", JValue.Byte 1)] ["a", "b"]
        = some [some (JValue.Byte 1), none] :=
  ⟨(claim_C9_get_mut_multi [("a", JValue.Byte 1)] ["a", "a"]).1.mpr
      (by decide),
   by
    rw [(claim_C9_get_mut_multi [("a", JValue.Byte 1)] ["a", "b"]).2.1
      (by decide)]
    rfl⟩

/-! ## C10: `rename_keys` -/

/-- Looking up the key just inserted. -/
theorem JCompound.get_insert_self (m : JCompound) (key : String) (value : JValue) :
    JCompound.get (JCompound.insert m key value) key = some value := by
  induction m with
  | nil => simp [JCompound.insert, JCompound.get]
  | cons p rest ih =>
    obtain ⟨k0, v0⟩ := p
    by_cases h : k0 = key
    · simp [JCompound.insert, JCompound.get, h]
    · simp only [JCompound.insert, if_neg h, JCompound.get]
      exact ih

/-- Inserting one key does not disturb lookups of another. -/
theorem JCompound.get_insert_ne (m : JCompound) (key : String) (value : JValue)
    (k' : String) (h : ¬ key = k') :
    JCompound.get (JCompound.insert m key value) k' = JCompound.get m k' := by
  induction m with
  | nil => simp [JCompound.insert, JCompound.get, h]
  | cons p rest ih =>
    obtain ⟨k0, v0⟩ := p
    by_cases h0 : k0 = key
    · subst h0
      simp [JCompound.insert, JCompound.get, h]
    · simp only [JCompound.insert, if_neg h0, JCompound.get]
      by_cases h1 : k0 = k'
      · simp [h1]
      · rw [if_neg h1, if_neg h1]
        exact ih

/-- Removing one key does not disturb lookups of another. -/
theorem JCompound.get_remove_ne (m : JCompound) (key : String)
    (k' : String) (h : ¬ key = k') :
    JCompound.get (JCompound.remove m key) k' = JCompound.get m k' := by
  induction m with
  | nil => simp [JCompound.remove, JCompound.get]
  | cons p rest ih =>
    obtain ⟨k0, v0⟩ := p
    by_cases h0 : k0 = key
    · subst h0
      simp [JCompound.remove, JCompound.get, h]
    · simp only [JCompound.remove, if_neg h0, JCompound.get]
      by_cases h1 : k0 = k'
      · simp [h1]
      · rw [if_neg h1, if_neg h1]
        exact ih

/-- The old keys selected by the renamer are the keys the renamer maps to
`some`, in key order. -/
theorem renames_fst_eq_filter (l : List String) (renamer : String → Option String) :
    (l.filterMap (fun key => (renamer key).map (fun nk => (key, nk)))).map Prod.fst
      = l.filter (fun k => (renamer k).isSome) := by
  induction l with
  | nil => rfl
  | cons k rest ih =>
    cases hr : renamer k with
    | none => simpa [List.filterMap_cons, List.filter_cons, hr] using ih
    | some nk => simp [List.filterMap_cons, List.filter_cons, hr, ih]

/-- One step of `rename_keys`'s removal pass, when the old key is
present. -/
theorem rename_phase2_step (m : JCompound) (collected : List (String × JValue))
    (p : String × String) (v : JValue) (hv : JCompound.get m p.1 = some v) :
    (fun acc p =>
      match acc with
      | none => none
      | some (m, collected) =>
        match JCompound.get m p.1 with
        | none => none
        | some v => some (JCompound.remove m p.1, collected ++ [(p.2, v)]))
      (some (m, collected)) p
    = some (JCompound.remove m p.1, collected ++ [(p.2, v)]) := by
  simp only [hv]

/-- The removal pass of `rename_keys`: with pairwise-distinct old keys that
are all present, it never panics, removes every old key, and collects each
value under its new key, in rule order. -/
theorem rename_phase2_spec (renames : List (String × String)) :
    ∀ (m : JCompound) (acc : List (String × JValue)),
      (renames.map Prod.fst).Nodup →
      (∀ p ∈ renames, (JCompound.get m p.1).isSome) →
      renames.foldl
        (fun acc p =>
          match acc with
          | none => none
          | some (m, collected) =>
            match JCompound.get m p.1 with
            | none => none
            | some v => some (JCompound.remove m p.1, collected ++ [(p.2, v)]))
        (some (m, acc))
      = some (renames.foldl (fun m p => JCompound.remove m p.1) m,
          acc ++ renames.map
            (fun q => (q.2, (JCompound.get m q.1).getD (JValue.Byte 0)))) := by
  induction renames with
  | nil => intro m acc _ _; simp
  | cons q rest ih =>
    intro m acc hnd hpres
    obtain ⟨o, n⟩ := q
    obtain ⟨v, hv⟩ := Option.isSome_iff_exists.mp
      (hpres (o, n) (List.mem_cons_self _ _))
    rw [List.map_cons] at hnd
    have hnd' := List.nodup_cons.mp hnd
    have hne : ∀ p ∈ rest, ¬ (p.1 = o) := by
      intro p hp hpo
      have hmm : p.1 ∈ List.map Prod.fst rest := List.mem_map_of_mem Prod.fst hp
      exact hnd'.1 (hpo ▸ hmm)
    have hremget : ∀ p ∈ rest,
        JCompound.get (JCompound.remove m o) p.1 = JCompound.get m p.1 :=
      fun p hp => JCompound.get_remove_ne m o p.1 (fun ho => hne p hp ho.symm)
    have hih := ih (JCompound.remove m o) (acc ++ [(n, v)]) hnd'.2
      (fun p hp => by
        rw [hremget p hp]
        exact hpres p (List.mem_cons_of_mem _ hp))
    rw [List.map_congr_left (fun p hp => by rw [hremget p hp] :
      ∀ p ∈ rest, (p.2, (JCompound.get (JCompound.remove m o) p.1).getD (JValue.Byte 0))
        = (p.2, (JCompound.get m p.1).getD (JValue.Byte 0)))] at hih
    rw [List.foldl_cons]
    simp only [hv]
    rw [hih]
    simp [List.foldl_cons, List.map_cons, hv]

/-- Inserting a batch of entries whose keys avoid `k` leaves `k`'s lookup
unchanged. -/
theorem JCompound.get_foldl_insert_not_mem (l : List (String × JValue)) :
    ∀ (m : JCompound) (k : String), ¬ k ∈ l.map Prod.fst →
    JCompound.get (l.foldl (fun m kv => JCompound.insert m kv.1 kv.2) m) k
      = JCompound.get m k := by
  induction l with
  | nil => intro m k _; rfl
  | cons kv rest ih =>
    intro m k hk
    rw [List.foldl_cons,
      ih _ k (fun hm => hk (List.mem_cons_of_mem _ hm)),
      JCompound.get_insert_ne m kv.1 kv.2 k
        (fun he => hk (he ▸ List.mem_cons_self _ _))]

/-- Inserting a batch of entries with pairwise-distinct keys makes each
entry's value retrievable under its key. -/
theorem JCompound.get_foldl_insert_mem (l : List (String × JValue)) :
    ∀ (m : JCompound) (k : String) (v : JValue),
    (l.map Prod.fst).Nodup → (k, v) ∈ l →
    JCompound.get (l.foldl (fun m kv => JCompound.insert m kv.1 kv.2) m) k
      = some v := by
  induction l with
  | nil => intro m k v _ hm; cases hm
  | cons kv rest ih =>
    intro m k v hnd hm
    rcases List.mem_cons.mp hm with rfl | hm
    · rw [List.foldl_cons,
        JCompound.get_foldl_insert_not_mem rest _ k (List.nodup_cons.mp hnd).1,
        JCompound.get_insert_self]
    · rw [List.foldl_cons]
      rw [List.map_cons] at hnd
      exact ih _ k v (List.nodup_cons.mp hnd).2 hm

/-- **C10.** `rename_keys` collects all (old, new) pairs first and removes
every old key before inserting any new key: on a map with distinct keys,
when the renamer assigns pairwise-distinct new keys to the keys it
renames, the call succeeds (no `unwrap` panic) and every renamed value
ends up under its new key — even when that new key is itself another key
being simultaneously renamed away (so a rule swapping two present keys
loses neither value). -/
theorem claim_C10_rename_keys (map : JCompound) (renamer : String → Option String)
    (hnd : map.keysOf.Nodup)
    (hinj : ((map.keysOf.filterMap
        (fun key => (renamer key).map (fun nk => (key, nk)))).map Prod.snd).Nodup) :
    ∃ map', rename_keys map renamer = some map'
      ∧ ∀ k v nk, JCompound.get map k = some v → renamer k = some nk →
          JCompound.get map' nk = some v := by
  have hfst := renames_fst_eq_filter map.keysOf renamer
  have hndf : ((map.keysOf.filterMap
      (fun key => (renamer key).map (fun nk => (key, nk)))).map Prod.fst).Nodup := by
    rw [hfst]; exact hnd.filter _
  have hpres : ∀ p ∈ map.keysOf.filterMap
      (fun key => (renamer key).map (fun nk => (key, nk))),
      (JCompound.get map p.1).isSome := by
    intro p hp
    obtain ⟨a, ha, hfa⟩ := List.mem_filterMap.mp hp
    obtain ⟨nk, _, hank⟩ := Option.map_eq_some'.mp hfa
    rw [← hank]
    exact (JCompound.isSome_get_iff map a).mpr ha
  have hph := rename_phase2_spec
    (map.keysOf.filterMap (fun key => (renamer key).map (fun nk => (key, nk))))
    map [] hndf hpres
  have hrw : rename_keys map renamer
      = some (((map.keysOf.filterMap
            (fun key => (renamer key).map (fun nk => (key, nk)))).map
              (fun q => (q.2, (JCompound.get map q.1).getD (JValue.Byte 0)))).foldl
          (fun m kv => JCompound.insert m kv.1 kv.2)
          ((map.keysOf.filterMap
            (fun key => (renamer key).map (fun nk => (key, nk)))).foldl
              (fun m p => JCompound.remove m p.1) map)) := by
    simp only [rename_keys]
    rw [hph]
    simp
  refine ⟨_, hrw, ?_⟩
  intro k v nk hk hr
  have hkmem : (k, nk) ∈ map.keysOf.filterMap
      (fun key => (renamer key).map (fun nk => (key, nk))) :=
    List.mem_filterMap.mpr ⟨k,
      (JCompound.isSome_get_iff map k).mp (by rw [hk]; rfl),
      by rw [hr]; rfl⟩
  have hvm : (nk, v) ∈ (map.keysOf.filterMap
      (fun key => (renamer key).map (fun nk => (key, nk)))).map
        (fun q => (q.2, (JCompound.get map q.1).getD (JValue.Byte 0))) :=
    List.mem_map.mpr ⟨(k, nk), hkmem, by simp [hk]⟩
  have hndr : (((map.keysOf.filterMap
      (fun key => (renamer key).map (fun nk => (key, nk)))).map
        (fun q => (q.2, (JCompound.get map q.1).getD (JValue.Byte 0)))).map
          Prod.fst).Nodup := by
    rw [List.map_map]
    exact hinj
  exact JCompound.get_foldl_insert_mem _ _ nk v hndr hvm

/-- Witness for C10: a rule swapping the two present keys of
`{"a": 1b, "b": 2b}` loses neither value. -/
theorem claim_C10_rename_keys_witness :
    ∃ map', rename_keys [("a", JValue.Byte 1), ("b", JValue.Byte 2)]
        (fun k => if k = "a" then some "b" else if k = "b" then some "a" else none)
        = some map'
      ∧ JCompound.get map' "b" = some (JValue.Byte 1)
      ∧ JCompound.get map' "a" = some (JValue.Byte 2) := by
  obtain ⟨m', h1, h2⟩ := claim_C10_rename_keys
    [("a", JValue.Byte 1), ("b", JValue.Byte 2)]
    (fun k => if k = "a" then some "b" else if k = "b" then some "a" else none)
    (by decide) (by decide)
  exact ⟨m', h1, h2 "a" (JValue.Byte 1) "b" rfl rfl,
    h2 "b" (JValue.Byte 2) "a" rfl rfl⟩

/-! ## C8: `convert_dynamic_list_in_map` -/

/-- Pushing onto the empty list adopts the value's type. -/
theorem JList.try_push_end (v : JValue) :
    JList.End.try_push v = (JList.fromValue v, true) := rfl

/-- A one-element list has its element's type. -/
theorem JList.kindOf_fromValue (v : JValue) :
    (JList.fromValue v).kindOf = some v.kind := by
  cases v <;> rfl

/-- A one-element list holds exactly its element. -/
theorem JList.toValues_fromValue (v : JValue) :
    (JList.fromValue v).toValues = [v] := by
  cases v <;> rfl

/-- A matching `try_push` succeeds and appends. -/
theorem JList.try_push_match (l : JList) (v : JValue) (k : JKind)
    (hl : l.kindOf = some k) (hv : v.kind = k) :
    (l.try_push v).1.kindOf = some k
    ∧ (l.try_push v).1.toValues = l.toValues ++ [v]
    ∧ (l.try_push v).2 = true := by
  cases l <;> cases v <;>
    simp_all [JList.kindOf, JValue.kind, JList.try_push, JList.toValues] <;>
    (subst hl; cases hv)

/-- A mismatched `try_push` drops the value: list unchanged, `false`
returned. -/
theorem JList.try_push_mismatch (l : JList) (v : JValue) (k : JKind)
    (hl : l.kindOf = some k) (hv : ¬ v.kind = k) :
    l.try_push v = (l, false) := by
  cases l <;> cases v <;>
    simp_all [JList.kindOf, JValue.kind, JList.try_push]

/-- The drain-convert-push loop of `convert_list_inner`, started from a
typed accumulator: the accumulator's type never changes, exactly the
converted elements of that type are appended (the others are dropped), and
the success flag survives iff every converted element has that type. -/
theorem convert_inner_fold (conv : JValue → DataVersion → DataVersion → JValue)
    (f t : DataVersion) (es : List JValue) :
    ∀ (l : JList) (flag : Bool) (k : JKind), l.kindOf = some k →
    ((es.foldl
      (fun acc e =>
        let e2 := conv e f t
        let p := acc.1.try_push e2
        (p.1, acc.2 && p.2)) (l, flag)).1.kindOf = some k
    ∧ (es.foldl
      (fun acc e =>
        let e2 := conv e f t
        let p := acc.1.try_push e2
        (p.1, acc.2 && p.2)) (l, flag)).1.toValues
        = l.toValues ++ (es.map (fun x => conv x f t)).filter
            (fun u => u.kind == k)
    ∧ (es.foldl
      (fun acc e =>
        let e2 := conv e f t
        let p := acc.1.try_push e2
        (p.1, acc.2 && p.2)) (l, flag)).2
        = (flag && (es.map (fun x => conv x f t)).all
            (fun u => u.kind == k))) := by
  induction es with
  | nil => intro l flag k hl; simp [hl]
  | cons e rest ih =>
    intro l flag k hl
    by_cases hk : (conv e f t).kind = k
    · obtain ⟨hk1, hk2, hk3⟩ := JList.try_push_match l (conv e f t) k hl hk
      have hih := ih ((l.try_push (conv e f t)).1)
        (flag && (l.try_push (conv e f t)).2) k hk1
      simp only [List.foldl_cons]
      refine ⟨hih.1, ?_, ?_⟩
      · rw [hih.2.1, hk2]
        simp [hk]
      · rw [hih.2.2, hk3]
        simp [hk]
    · have hmm := JList.try_push_mismatch l (conv e f t) k hl hk
      have hih := ih l (flag && false) k hl
      simp only [List.foldl_cons, hmm]
      refine ⟨hih.1, ?_, ?_⟩
      · rw [hih.2.1]
        simp [hk]
      · rw [hih.2.2]
        simp [hk]

/-- `convert_list_inner` on a non-empty element list: the result holds the
converted head followed by exactly those converted tail elements sharing
the converted head's type, and the flag reports whether all of them did. -/
theorem convert_list_inner_spec (conv : JValue → DataVersion → DataVersion → JValue)
    (f t : DataVersion) (e : JValue) (rest : List JValue) :
    (convert_list_inner conv (e :: rest) f t).1.toValues
        = conv e f t :: (rest.map (fun x => conv x f t)).filter
            (fun u => u.kind == (conv e f t).kind)
    ∧ (convert_list_inner conv (e :: rest) f t).2
        = (rest.map (fun x => conv x f t)).all
            (fun u => u.kind == (conv e f t).kind) := by
  have h0 : convert_list_inner conv (e :: rest) f t
      = rest.foldl
          (fun acc e =>
            let e2 := conv e f t
            let p := acc.1.try_push e2
            (p.1, acc.2 && p.2))
          (JList.fromValue (conv e f t), true) := by
    rw [convert_list_inner]
    simp [JList.try_push]
  have hch := convert_inner_fold conv f t rest (JList.fromValue (conv e f t)) true
    (conv e f t).kind (JList.kindOf_fromValue (conv e f t))
  rw [h0]
  exact ⟨by rw [hch.2.1, JList.toValues_fromValue]; rfl,
    by rw [hch.2.2, Bool.true_and]⟩

/-- Counterexample to C8's "coerce into a generic/mixed-element list"
wording: converting `{"k": [1b, 2b]}` with a converter mapping `2b ↦ 2s`
(so the converted elements `1b, 2s` are heterogeneous) does not produce a
mixed-element list — the input had two elements, the result list is
`[1b]`: the mismatched `2s` is dropped.  The warning flag (`true`) and the
absence of a hard failure are as claimed. -/
theorem claim_C8_list_conversion_counterexample :
    convert_dynamic_list_in_map
        (fun v _ _ => match v with | JValue.Byte 2 => JValue.Short 2 | x => x)
        [("k", JValue.List (JList.Byte [1, 2]))] "k" ⟨0, 0⟩ ⟨1, 0⟩
      = ([("k", JValue.List (JList.Byte [1]))], true)
    ∧ (JList.Byte [1, 2]).toValues.length = 2
    ∧ (JList.Byte [1]).toValues = [JValue.Byte 1] :=
  ⟨rfl, rfl, rfl⟩

/-- **C8 (amended).** When `convert_dynamic_list_in_map` converts a
non-empty uniformly-typed list, it never aborts: it always writes a list
back under the same key and at most logs a warning.  But heterogeneous
conversion results are not coerced into a mixed-element list: the result
keeps the converted first element and exactly those converted later
elements whose type matches the converted first element's type — the
mismatched elements are dropped — and the warning fires iff at least one
converted element mismatched. -/
theorem claim_C8_list_conversion (conv : JValue → DataVersion → DataVersion → JValue)
    (data : JCompound) (path : String) (f t : DataVersion)
    (l : JList) (e : JValue) (rest : List JValue)
    (hget : JCompound.get data path = some (JValue.List l))
    (htv : l.toValues = e :: rest) :
    convert_dynamic_list_in_map conv data path f t
      = (JCompound.insert data path
          (JValue.List (convert_list_inner conv (e :: rest) f t).1),
        !(rest.map (fun x => conv x f t)).all
            (fun u => u.kind == (conv e f t).kind))
    ∧ (convert_list_inner conv (e :: rest) f t).1.toValues
        = conv e f t :: (rest.map (fun x => conv x f t)).filter
            (fun u => u.kind == (conv e f t).kind) := by
  have hmain : convert_dynamic_list_in_map conv data path f t
      = (JCompound.insert data path
          (JValue.List (convert_list_inner conv l.toValues f t).1),
        !(convert_list_inner conv l.toValues f t).2) := by
    cases l with
    | End => simp [JList.toValues] at htv
    | Byte bl => simp only [convert_dynamic_list_in_map, hget, JList.toValues]
    | Short bl => simp only [convert_dynamic_list_in_map, hget, JList.toValues]
    | Int bl => simp only [convert_dynamic_list_in_map, hget, JList.toValues]
    | Long bl => simp only [convert_dynamic_list_in_map, hget, JList.toValues]
    | Float bl => simp only [convert_dynamic_list_in_map, hget, JList.toValues]
    | Double bl => simp only [convert_dynamic_list_in_map, hget, JList.toValues]
    | ByteArray bl => simp only [convert_dynamic_list_in_map, hget, JList.toValues]
    | String bl => simp only [convert_dynamic_list_in_map, hget, JList.toValues]
    | List bl => simp only [convert_dynamic_list_in_map, hget, JList.toValues]
    | Compound bl => simp only [convert_dynamic_list_in_map, hget, JList.toValues]
    | IntArray bl => simp only [convert_dynamic_list_in_map, hget, JList.toValues]
    | LongArray bl => simp only [convert_dynamic_list_in_map, hget, JList.toValues]
  rw [htv] at hmain
  have hspec := convert_list_inner_spec conv f t e rest
  refine ⟨?_, hspec.1⟩
  rw [hmain, hspec.2]

/-- Witness for the amended C8 at the counterexample's inputs. -/
theorem claim_C8_list_conversion_witness :
    convert_dynamic_list_in_map
        (fun v _ _ => match v with | JValue.Byte 2 => JValue.Short 2 | x => x)
        [("k", JValue.List (JList.Byte [1, 2]))] "k" ⟨0, 0⟩ ⟨1, 0⟩
      = ([("k", JValue.List (JList.Byte [1]))], true)
    ∧ (convert_list_inner
        (fun v _ _ => match v with | JValue.Byte 2 => JValue.Short 2 | x => x)
        [JValue.Byte 1, JValue.Byte 2] ⟨0, 0⟩ ⟨1, 0⟩).1.toValues
      = [JValue.Byte 1] :=
  claim_C8_list_conversion
    (fun v _ _ => match v with | JValue.Byte 2 => JValue.Short 2 | x => x)
    [("k", JValue.List (JList.Byte [1, 2]))] "k" ⟨0, 0⟩ ⟨1, 0⟩
    (JList.Byte [1, 2]) (JValue.Byte 1) [JValue.Byte 2] rfl rfl

end WTE

